import Mathlib

/-!
A shallow embedding of the input-interpretation core of the reedline fork
(edit_mode: keybinding tables, the shared partial-sequence matcher, and the
Emacs-, Vi- and Helix-style mode drivers), together with theorems checking
the specification's claims against it.

Modelling conventions:
* Rust `HashMap<KeyCombination, KeyNode>` is modelled as an association list
  with unique keys (`SeqMap`); `HashMap` semantics are defined by lookup, and
  every map reachable through the embedded operations has unique keys, so
  first-match lookup is a faithful model.
* Machine integers (`usize`) are `Nat`; where the source can overflow or a
  slice index can go out of bounds we model the wrap with an explicit
  `% 2 ^ 64`, and panics as the `Except.error` case of an explicit
  panic monad (`Except String`).
* Grapheme segmentation (crate unicode_segmentation) is modelled at the
  character level, which is exact for ASCII content; the bounds checks and
  the panic behaviour of the byte-slicing are modelled exactly.
* `enums.rs`, `vi/parser.rs`, `vi/motion.rs` and `hinter` are not part of the
  provided sources; the enum variants below are reconstructed from their uses
  in the provided files, and the Vi grammar parser is abstracted as an
  explicit function parameter (no claim depends on its behaviour).
-/

/-- Modifier bitflags of crossterm `KeyModifiers` (subset used by the code). -/
structure KeyModifiers where
  shift : Bool
  control : Bool
  alt : Bool
  sup : Bool
deriving DecidableEq, Repr

def kmNONE : KeyModifiers := ⟨false, false, false, false⟩

def kmSHIFT : KeyModifiers := ⟨true, false, false, false⟩

def kmCONTROL : KeyModifiers := ⟨false, true, false, false⟩

def kmALT : KeyModifiers := ⟨false, false, true, false⟩

def kmSUPER : KeyModifiers := ⟨false, false, false, true⟩

/-- Bitwise union of modifier flags (Rust `|` on bitflags). -/
def kmOr (a b : KeyModifiers) : KeyModifiers :=
  ⟨a.shift || b.shift, a.control || b.control, a.alt || b.alt, a.sup || b.sup⟩

/-- crossterm `KeyCode` (the variants used by the embedded sources). -/
inductive KeyCode where
  | Char (c : Char)
  | Esc
  | Enter
  | Backspace
  | Delete
  | Left
  | Right
  | Up
  | Down
  | Home
  | End
deriving DecidableEq, Repr

/-- `KeyCombination`: a modifier/key pair (keybindings.rs). -/
structure KeyCombination where
  modifier : KeyModifiers
  keyCode : KeyCode
deriving DecidableEq, Repr

/-- Rust `char::to_ascii_lowercase`. -/
def asciiLower (c : Char) : Char :=
  if 'A' ≤ c ∧ c ≤ 'Z' then Char.ofNat (c.toNat + 32) else c

/-- Rust `char::to_ascii_uppercase`. -/
def asciiUpper (c : Char) : Char :=
  if 'a' ≤ c ∧ c ≤ 'z' then Char.ofNat (c.toNat - 32) else c

/-- `EditCommand` (enums.rs, absent from the provided sources): the concrete
buffer operations; variants reconstructed from their uses in the provided
files. -/
inductive EditCommand where
  | InsertChar (c : Char)
  | InsertString (s : List Char)
  | InsertNewline
  | Backspace
  | Delete
  | BackspaceWord
  | DeleteWord
  | MoveLeft (select : Bool)
  | MoveRight (select : Bool)
  | MoveWordLeft (select : Bool)
  | MoveWordRight (select : Bool)
  | MoveWordRightBeforeStart (select : Bool)
  | MoveWordRightEnd (select : Bool)
  | MoveBigWordLeft (select : Bool)
  | MoveBigWordRightBeforeStart (select : Bool)
  | MoveBigWordRightEnd (select : Bool)
  | MoveToLineStart (select : Bool)
  | MoveToLineEnd (select : Bool)
  | MoveToStart (select : Bool)
  | MoveToEnd (select : Bool)
  | MoveRightBefore (c : Char) (select : Bool)
  | SelectAll
  | ClearSelection
  | Clear
  | Undo
  | Redo
  | PasteCutBufferBefore
  | PasteCutBufferAfter
  | CutWordLeft
  | CutBigWordLeft
  | CutWordRight
  | CutBigWordRight
  | CutWordRightToNext
  | CutBigWordRightToNext
  | CutToLineEnd
  | CutFromStart
  | CutFromLineStart
  | CutCurrentLine
  | CutChar
  | CutSelection
  | CutLeftBefore (c : Char)
  | CutRightBefore (c : Char)
  | CutLeftUntil (c : Char)
  | CutRightUntil (c : Char)
  | ClearToLineEnd
  | ReplaceChar (c : Char)
  | SwitchcaseChar
  | SwapGraphemes
  | UppercaseWord
  | LowercaseWord
  | CapitalizeChar

/-- `HelixNormal` (enums.rs): Helix Normal-mode commands, reconstructed from
the match in helix/mod.rs. -/
inductive HelixNormal where
  | InsertMode
  | SelectMode
  | MoveCharLeft
  | MoveVisualLineDown
  | MoveVisualLineUp
  | MoveCharRight
  | MoveNextWordStart
  | MovePrevWordStart
  | MoveNextWordEnd
  | MoveNextLongWordStart
  | MovePrevLongWordStart
  | MoveNextLongWordEnd
  | FindTillChar

/-- `HelixEvent` (enums.rs). -/
inductive HelixEvent where
  | NormalMode
  | Normal (n : HelixNormal)

/-- `ReedlineEvent` (enums.rs): the abstract editor events, reconstructed from
their uses in the provided files. -/
inductive ReedlineEvent where
  | None
  | Edit (cmds : List EditCommand)
  | Multiple (events : List ReedlineEvent)
  | UntilFound (events : List ReedlineEvent)
  | Enter
  | Esc
  | CtrlC
  | CtrlD
  | ClearScreen
  | SearchHistory
  | OpenEditor
  | Repaint
  | Up
  | Down
  | Left
  | Right
  | MenuUp
  | MenuDown
  | MenuLeft
  | MenuRight
  | HistoryHintComplete
  | HistoryHintWordComplete
  | Mouse
  | Resize (w h : Nat)
  | Helix (e : HelixEvent)

mutual

/-- `KeyNode` (keybindings.rs): a leaf event or a nested table. -/
inductive KeyNode where
  | Event (e : ReedlineEvent)
  | Seq (m : SeqMap)

/-- `Sequence` / `HashMap<KeyCombination, KeyNode>` (keybindings.rs), as an
association list with unique keys. -/
inductive SeqMap where
  | nil
  | cons (k : KeyCombination) (v : KeyNode) (rest : SeqMap)

end

/-- `HashMap::get` (first-match lookup; keys are unique). -/
def SeqMap.lookup : SeqMap → KeyCombination → Option KeyNode
  | .nil, _ => none
  | .cons k v rest, q => if k = q then some v else rest.lookup q

/-- `HashMap::contains_key`. -/
def SeqMap.containsKey (m : SeqMap) (q : KeyCombination) : Bool :=
  (m.lookup q).isSome

/-- `HashMap::remove`: the removed value (if any) and the remaining map. -/
def SeqMap.removeKey : SeqMap → KeyCombination → Option KeyNode × SeqMap
  | .nil, _ => (none, .nil)
  | .cons k v rest, q =>
    if k = q then (some v, rest)
    else
      let (r, m) := rest.removeKey q
      (r, .cons k v m)

/-- Replace the value stored at a key (the `Entry::Occupied` in-place update). -/
def SeqMap.setValue : SeqMap → KeyCombination → KeyNode → SeqMap
  | .nil, _, _ => .nil
  | .cons k v rest, q, w =>
    if k = q then .cons k w rest else .cons k v (rest.setValue q w)

/-- Concatenation of two maps (used to model `HashMap::extend`). -/
def SeqMap.app : SeqMap → SeqMap → SeqMap
  | .nil, b => b
  | .cons k v rest, b => .cons k v (rest.app b)

/-- The entries of `m2` whose key does not occur in `m`: after the merge loop
has consumed the shared keys, these are exactly the entries `extend` adds. -/
def SeqMap.filterNotIn : SeqMap → SeqMap → SeqMap
  | .nil, _ => .nil
  | .cons k v rest, m => if m.containsKey k then rest.filterNotIn m
                         else .cons k v (rest.filterNotIn m)

mutual

/-- `KeyNode::merge` (keybindings.rs lines 75-88): two subtrees merge
recursively at shared keys and the other side's fresh keys are added
(`extend`); if either side is a leaf, `other` wins. For key-unique maps this
update-then-extend formulation coincides with the source's
iterate/`remove`/`extend`. -/
def KeyNode.merge : KeyNode → KeyNode → KeyNode
  | .Seq m, .Seq m2 => .Seq ((mergeUpd m m2).app (m2.filterNotIn m))
  | _, other => other

/-- The loop of `KeyNode::merge`: each entry of `m` whose key also occurs in
`m2` is merged recursively with the corresponding `m2` value. -/
def mergeUpd : SeqMap → SeqMap → SeqMap
  | .nil, _ => .nil
  | .cons k v rest, m2 =>
    match m2.lookup k with
    | some o => .cons k (v.merge o) (mergeUpd rest m2)
    | none => .cons k v (mergeUpd rest m2)

end

/-- `KeyNode::new` (keybindings.rs lines 64-72): wrap an event in singleton
`Sequence` nodes, one per path element (the source folds over the reversed
path; this structural recursion builds the same node). -/
def mkKeyNode : List KeyCombination → ReedlineEvent → KeyNode
  | [], e => .Event e
  | k :: ks, e => .Seq (.cons k (mkKeyNode ks e) .nil)

/-- `Keybindings` (keybindings.rs): a root table. -/
structure Keybindings where
  bindings : SeqMap

/-- `Keybindings::new` / `Keybindings::default` / `Keybindings::empty`. -/
def Keybindings.empty : Keybindings := ⟨.nil⟩

/-- `Keybindings::add_binding` after its `UntilFound` assertion (keybindings.rs
lines 140-144): build the node for the tail of the path and either merge it
into the occupied root entry or insert it fresh. -/
def Keybindings.addBinding (kb : Keybindings) (startKey : KeyCombination)
    (keyCombinations : List KeyCombination) (command : ReedlineEvent) :
    Keybindings :=
  let keyNode := mkKeyNode keyCombinations command
  match kb.bindings.lookup startKey with
  | some old => ⟨kb.bindings.setValue startKey (old.merge keyNode)⟩
  | none => ⟨kb.bindings.app (.cons startKey keyNode .nil)⟩

/-- `Keybindings::add_binding` including its eager assertion (keybindings.rs
lines 127-145): registering an empty `UntilFound` panics (modelled as `none`)
before the table is touched. -/
def Keybindings.addBindingChecked (kb : Keybindings)
    (startKey : KeyCombination) (keyCombinations : List KeyCombination)
    (command : ReedlineEvent) : Option Keybindings :=
  match command with
  | .UntilFound [] => none
  | _ => some (kb.addBinding startKey keyCombinations command)

/-- `Keybindings::find_binding`. -/
def Keybindings.findBinding (kb : Keybindings) (modifier : KeyModifiers)
    (keyCode : KeyCode) : Option KeyNode :=
  kb.bindings.lookup ⟨modifier, keyCode⟩

/-- `to_lowercase_key_code` (keybindings.rs lines 170-176). -/
def toLowercaseKeyCode : KeyCode → KeyCode
  | .Char c => .Char (asciiLower c)
  | k => k

/-- Resolution of a full key path against a node: the leaf event reachable by
following the path, if any.  This is the "previously reachable leaf" notion of
the specification's merge invariant. -/
def resolveNode : KeyNode → List KeyCombination → Option ReedlineEvent
  | .Event e, [] => some e
  | .Event _, _ :: _ => none
  | .Seq _, [] => none
  | .Seq m, k :: ks =>
    match m.lookup k with
    | some n => resolveNode n ks
    | none => none

/-- Resolution of a key path against a whole table. -/
def Keybindings.resolve (kb : Keybindings) (path : List KeyCombination) :
    Option ReedlineEvent :=
  resolveNode (.Seq kb.bindings) path

/-- Boolean list-prefix test on key paths. -/
def pathLe : List KeyCombination → List KeyCombination → Bool
  | [], _ => true
  | _ :: _, [] => false
  | a :: as', b :: bs => a = b && pathLe as' bs

/-! ### Lookup lemmas for the merged table (claim C1) -/

/-- Structural induction for `SeqMap` alone (the mutual recursor joins the
motives, so the `induction` tactic cannot be used directly). -/
theorem SeqMap.recOnMap (P : SeqMap → Prop) (hnil : P SeqMap.nil)
    (hcons : ∀ k v rest, P rest → P (SeqMap.cons k v rest)) :
    ∀ m, P m
  | SeqMap.nil => hnil
  | SeqMap.cons k v rest => hcons k v rest (SeqMap.recOnMap P hnil hcons rest)

theorem SeqMap.lookup_app (a b : SeqMap) (q : KeyCombination) :
    (a.app b).lookup q =
      match a.lookup q with
      | some v => some v
      | none => b.lookup q := by
  induction a using SeqMap.recOnMap with
  | hnil => simp [SeqMap.app, SeqMap.lookup]
  | hcons k v rest ih =>
    by_cases h : k = q <;> simp [SeqMap.app, SeqMap.lookup, h, ih]

theorem lookup_mergeUpd (m m2 : SeqMap) (q : KeyCombination) :
    (mergeUpd m m2).lookup q =
      (m.lookup q).map fun v =>
        match m2.lookup q with
        | some o => v.merge o
        | none => v := by
  induction m using SeqMap.recOnMap with
  | hnil => simp [mergeUpd, SeqMap.lookup]
  | hcons k v rest ih =>
    by_cases h : k = q
    · subst h
      cases h2 : m2.lookup k <;> simp [mergeUpd, SeqMap.lookup, h2]
    · cases h2 : m2.lookup k <;> simp [mergeUpd, SeqMap.lookup, h, h2, ih]

theorem SeqMap.lookup_filterNotIn (m2 m : SeqMap) (q : KeyCombination)
    (h : m.lookup q = none) :
    (m2.filterNotIn m).lookup q = m2.lookup q := by
  induction m2 using SeqMap.recOnMap with
  | hnil => simp [SeqMap.filterNotIn]
  | hcons k v rest ih =>
    by_cases hk : k = q
    · subst hk
      have : m.containsKey k = false := by
        simp [SeqMap.containsKey, h]
      simp [SeqMap.filterNotIn, this, SeqMap.lookup]
    · cases hc : m.containsKey k <;>
        simp [SeqMap.filterNotIn, hc, SeqMap.lookup, hk, ih]

/-- Lookup in the map produced by merging two `Seq` nodes: shared keys hold
the recursive merge, keys only in `m` keep their value, keys only in `m2` are
adopted. -/
theorem lookup_mergeSeq (m m2 : SeqMap) (q : KeyCombination) :
    ((mergeUpd m m2).app (m2.filterNotIn m)).lookup q =
      match m.lookup q with
      | some v =>
        some (match m2.lookup q with
              | some o => v.merge o
              | none => v)
      | none => m2.lookup q := by
  rw [SeqMap.lookup_app, lookup_mergeUpd]
  cases h : m.lookup q with
  | some v => simp
  | none => simp [SeqMap.lookup_filterNotIn m2 m q h]

theorem SeqMap.lookup_setValue_self (m : SeqMap) (k : KeyCombination)
    (w : KeyNode) (h : (m.lookup k).isSome) :
    (m.setValue k w).lookup k = some w := by
  induction m using SeqMap.recOnMap with
  | hnil => simp [SeqMap.lookup] at h
  | hcons k' v rest ih =>
    by_cases hk : k' = k
    · subst hk; simp [SeqMap.setValue, SeqMap.lookup]
    · simp [SeqMap.setValue, SeqMap.lookup, hk] at h ⊢
      exact ih h

theorem SeqMap.lookup_setValue_ne (m : SeqMap) (k q : KeyCombination)
    (w : KeyNode) (h : q ≠ k) :
    (m.setValue k w).lookup q = m.lookup q := by
  induction m using SeqMap.recOnMap with
  | hnil => simp [SeqMap.setValue]
  | hcons k' v rest ih =>
    by_cases hk : k' = k
    · subst hk
      have hne : k' ≠ q := fun hh => h hh.symm
      simp [SeqMap.setValue, SeqMap.lookup, hne]
    · by_cases hq : k' = q <;>
        simp [SeqMap.setValue, SeqMap.lookup, hk, hq, ih, h]

/-- The freshly registered path resolves to its event through any merge. -/
theorem resolve_merge_mkKeyNode (q : List KeyCombination) (n : KeyNode)
    (Y : ReedlineEvent) :
    resolveNode (n.merge (mkKeyNode q Y)) q = some Y := by
  induction q generalizing n with
  | nil =>
    cases n <;> simp [mkKeyNode, KeyNode.merge, resolveNode]
  | cons b q' ih =>
    cases n with
    | Event e =>
      simp [mkKeyNode, KeyNode.merge, resolveNode, SeqMap.lookup]
      have := ih (mkKeyNode q' Y)
      -- resolveNode (mkKeyNode q' Y) q' = some Y follows from merging into
      -- a leaf, which is replaced by the fresh node itself
      cases q' with
      | nil => simp [mkKeyNode, resolveNode]
      | cons c r =>
        simpa [mkKeyNode, KeyNode.merge] using ih (.Event Y)
    | Seq m =>
      simp only [mkKeyNode, KeyNode.merge]
      simp only [resolveNode, lookup_mergeSeq]
      cases h : m.lookup b with
      | some v => simp [SeqMap.lookup, ih v]
      | none =>
        simp [SeqMap.lookup]
        cases q' with
        | nil => simp [mkKeyNode, resolveNode]
        | cons c r =>
          simpa [mkKeyNode, KeyNode.merge] using ih (.Event Y)

/-- Merge preservation (node level): a leaf reachable along `p` survives the
merge of a fresh registration along `q` whenever neither path is a prefix of
the other. -/
theorem resolve_merge_incomparable (p : List KeyCombination) :
    ∀ (n : KeyNode) (q : List KeyCombination) (X Y : ReedlineEvent),
    resolveNode n p = some X → pathLe p q = false → pathLe q p = false →
    resolveNode (n.merge (mkKeyNode q Y)) p = some X := by
  induction p with
  | nil => intro n q X Y _ hpq _; simp [pathLe] at hpq
  | cons a p' ih =>
    intro n q X Y hres hpq hqp
    cases n with
    | Event e => simp [resolveNode] at hres
    | Seq m =>
      simp only [resolveNode] at hres
      cases hl : m.lookup a with
      | none => simp [hl] at hres
      | some v =>
        simp only [hl] at hres
        cases q with
        | nil => simp [pathLe] at hqp
        | cons b q' =>
          simp only [mkKeyNode, KeyNode.merge, resolveNode, lookup_mergeSeq]
          by_cases hab : a = b
          · subst hab
            have hpq' : pathLe p' q' = false := by
              simpa [pathLe] using hpq
            have hqp' : pathLe q' p' = false := by
              simpa [pathLe] using hqp
            simp [hl, SeqMap.lookup, ih v q' X Y hres hpq' hqp']
          · have hba : ¬b = a := fun h => hab h.symm
            have hone : (SeqMap.cons b (mkKeyNode q' Y) SeqMap.nil).lookup a
                = none := by
              simp [SeqMap.lookup, hba]
            simp [hl, hone, hres]

/-- Merge preservation lifted to `Keybindings::add_binding`. -/
theorem addBinding_resolve_preserved (kb : Keybindings)
    (k : KeyCombination) (ks p : List KeyCombination) (X Y : ReedlineEvent)
    (hres : kb.resolve p = some X)
    (hpq : pathLe p (k :: ks) = false) (hqp : pathLe (k :: ks) p = false) :
    (kb.addBinding k ks Y).resolve p = some X := by
  cases p with
  | nil => simp [Keybindings.resolve, resolveNode] at hres
  | cons p0 p' =>
    simp only [Keybindings.resolve, resolveNode] at hres ⊢
    cases hl : kb.bindings.lookup p0 with
    | none => simp [hl] at hres
    | some n0 =>
      simp only [hl] at hres
      by_cases hk : p0 = k
      · subst hk
        have hocc : (kb.bindings.lookup p0).isSome := by simp [hl]
        simp only [Keybindings.addBinding, hl]
        rw [SeqMap.lookup_setValue_self kb.bindings p0 _ hocc]
        have hpq' : pathLe p' ks = false := by simpa [pathLe] using hpq
        have hqp' : pathLe ks p' = false := by simpa [pathLe] using hqp
        exact resolve_merge_incomparable p' n0 ks X Y hres hpq' hqp'
      · simp only [Keybindings.addBinding]
        cases hl2 : kb.bindings.lookup k with
        | some old =>
          rw [SeqMap.lookup_setValue_ne kb.bindings k p0 _ hk, hl]
          simp [hres]
        | none =>
          rw [SeqMap.lookup_app]
          simp [hl, hres]

/-- The newly added binding always resolves to its event. -/
theorem addBinding_resolve_new (kb : Keybindings) (k : KeyCombination)
    (ks : List KeyCombination) (Y : ReedlineEvent) :
    (kb.addBinding k ks Y).resolve (k :: ks) = some Y := by
  simp only [Keybindings.resolve, resolveNode, Keybindings.addBinding]
  cases hl : kb.bindings.lookup k with
  | some old =>
    have hocc : (kb.bindings.lookup k).isSome := by simp [hl]
    rw [SeqMap.lookup_setValue_self kb.bindings k _ hocc]
    exact resolve_merge_mkKeyNode ks old Y
  | none =>
    rw [SeqMap.lookup_app]
    simp only [hl]
    simp only [SeqMap.lookup, if_pos rfl]
    cases ks with
    | nil => simp [mkKeyNode, resolveNode]
    | cons c r =>
      simpa [mkKeyNode, KeyNode.merge] using
        resolve_merge_mkKeyNode (c :: r) (.Event Y) Y

/-! ### Concrete key combinations used in examples -/

def kcA : KeyCombination := ⟨kmNONE, .Char 'a'⟩

def kcB : KeyCombination := ⟨kmNONE, .Char 'b'⟩

def kcC : KeyCombination := ⟨kmNONE, .Char 'c'⟩

def kcG : KeyCombination := ⟨kmNONE, .Char 'g'⟩

def kcH : KeyCombination := ⟨kmNONE, .Char 'h'⟩

def kcX : KeyCombination := ⟨kmNONE, .Char 'x'⟩

def kcQ : KeyCombination := ⟨kmNONE, .Char 'q'⟩

def kcEnd : KeyCombination := ⟨kmNONE, .End⟩

def kcEsc : KeyCombination := ⟨kmNONE, .Esc⟩

/-! ### Claim C1 -/

/-- C1 (counterexample): the claim states that a previously reachable leaf is
preserved "unless the new registration's path exactly overwrites it".  After
registering `a b → ClearScreen`, registering the distinct path `a → Enter`
(which shares the prefix `a` but does not equal `a b`) nevertheless destroys
the leaf at `a b`: the leaf/`Sequence` collision at key `a` lets the new
registration replace the whole subtree. -/
theorem c1_merge_counterexample :
    (Keybindings.empty.addBinding kcA [kcB] .ClearScreen).resolve [kcA, kcB]
      = some .ClearScreen ∧
    ([kcA] : List KeyCombination) ≠ [kcA, kcB] ∧
    ((Keybindings.empty.addBinding kcA [kcB] .ClearScreen).addBinding
        kcA [] .Enter).resolve [kcA, kcB] = none :=
  ⟨rfl, by decide, rfl⟩

/-- C1 (amended): adding a path that shares a prefix with existing paths
merges structurally and preserves every previously reachable leaf whose path
is neither a prefix nor an extension of the new registration's path (if the
paths are comparable, the new registration wins, replacing the whole
colliding node); the new registration's own path always resolves to its
event; in particular, after registering `a b → X` and then `a c → Y`, both
`a b` and `a c` resolve to their respective events. -/
theorem c1_merge_preserves_incomparable_leaves :
    (∀ (kb : Keybindings) (k : KeyCombination) (ks p : List KeyCombination)
       (X Y : ReedlineEvent),
       kb.resolve p = some X →
       pathLe p (k :: ks) = false → pathLe (k :: ks) p = false →
       (kb.addBinding k ks Y).resolve p = some X) ∧
    (∀ (kb : Keybindings) (k : KeyCombination) (ks : List KeyCombination)
       (Y : ReedlineEvent),
       (kb.addBinding k ks Y).resolve (k :: ks) = some Y) ∧
    ((Keybindings.empty.addBinding kcA [kcB] .ClearScreen).addBinding
        kcA [kcC] .Enter).resolve [kcA, kcB] = some .ClearScreen ∧
    ((Keybindings.empty.addBinding kcA [kcB] .ClearScreen).addBinding
        kcA [kcC] .Enter).resolve [kcA, kcC] = some .Enter :=
  ⟨addBinding_resolve_preserved, addBinding_resolve_new, rfl, rfl⟩

/-- C1 (witness): the preservation statement applied at a concrete table —
`a b → ClearScreen` survives the subsequent registration `a c → Enter`. -/
theorem c1_merge_witness :
    ((Keybindings.empty.addBinding kcA [kcB] .ClearScreen).addBinding
        kcA [kcC] .Enter).resolve [kcA, kcB] = some .ClearScreen :=
  c1_merge_preserves_incomparable_leaves.1
    (Keybindings.empty.addBinding kcA [kcB] .ClearScreen)
    kcA [kcC] [kcA, kcB] .ClearScreen .Enter rfl (by decide) (by decide)

/-! ### The shared partial-sequence matcher (keybindings.rs lines 8-45) -/

/-- `KeySequenceResult`. -/
inductive KeySequenceResult where
  | Pending
  | Matched (e : ReedlineEvent)
  | Cancelled (history : List KeyCombination)

/-- `PartialKeySequence`: the subtree cursor plus the consumed-key history. -/
structure PartialKeySequence where
  sequence : SeqMap
  history : List KeyCombination

/-- `PartialKeySequence::advance` (keybindings.rs lines 30-40): push the key,
remove it from the cursor map; a leaf is a match, a subtree re-aims the
cursor, a miss cancels and surrenders the history (`mem::take`). -/
def PartialKeySequence.advance (p : PartialKeySequence)
    (kc : KeyCombination) : KeySequenceResult × PartialKeySequence :=
  let hist := p.history ++ [kc]
  match p.sequence.removeKey kc with
  | (some (.Event e), m) => (.Matched e, ⟨m, hist⟩)
  | (some (.Seq s), _) => (.Pending, ⟨s, hist⟩)
  | (none, m) => (.Cancelled hist, ⟨m, []⟩)

/-- `PartialKeySequence::cancel`. -/
def PartialKeySequence.cancel (p : PartialKeySequence) :
    List KeyCombination :=
  p.history

/-! ### The Emacs-style driver (emacs.rs) -/

/-- The Emacs driver's own partial-sequence state (emacs.rs keeps a `char`
history rather than a key history). -/
structure EmacsPartial where
  sequence : SeqMap
  history : List Char

/-- `Emacs`: the flat driver's state. -/
structure EmacsState where
  keybindings : Keybindings
  pending : Option EmacsPartial

/-- The character recorded in the Emacs history for a `Char` key: upper-cased
when the modifier is exactly `SHIFT` (emacs.rs lines 256-261 and 272-280). -/
def emacsHistChar (modifier : KeyModifiers) (c : Char) : Char :=
  if modifier = kmSHIFT then asciiUpper c else c

/-- `Emacs::handle_binding` (emacs.rs lines 246-304). With no pending
sequence: an unbound key returns no event, a bound leaf fires, a bound
subtree starts a pending sequence (recording the literal character) and
reports the no-op event.  With a pending sequence: a `Char` key is first
appended to the history, then the key is looked up in the cursor map — a leaf
fires, a subtree re-aims the cursor and reports no-op, a miss replays the
whole character history as literal insertions. -/
def emacsHandleBinding (s : EmacsState) (modifier : KeyModifiers)
    (keyCode : KeyCode) : Option ReedlineEvent × EmacsState :=
  match s.pending with
  | none =>
    match s.keybindings.findBinding modifier keyCode with
    | none => (none, s)
    | some (.Seq seq) =>
      let hist : List Char :=
        match keyCode with
        | .Char c => [emacsHistChar modifier c]
        | _ => []
      (some .None, { s with pending := some ⟨seq, hist⟩ })
    | some (.Event e) => (some e, s)
  | some p =>
    let hist : List Char :=
      match keyCode with
      | .Char c => p.history ++ [emacsHistChar modifier c]
      | _ => p.history
    match (p.sequence.removeKey ⟨modifier, keyCode⟩).1 with
    | some (.Event e) => (some e, { s with pending := none })
    | some (.Seq seq) =>
      (some .None, { s with pending := some ⟨seq, hist⟩ })
    | none =>
      (some (.Edit (hist.map .InsertChar)), { s with pending := none })

/-- Feeding a list of keys, one `handle_binding` call each. -/
def runEmacs (s : EmacsState) : List KeyCombination →
    List (Option ReedlineEvent) × EmacsState
  | [] => ([], s)
  | k :: ks =>
    let (r, s1) := emacsHandleBinding s k.modifier k.keyCode
    let (rs, s2) := runEmacs s1 ks
    (r :: rs, s2)

/-- Resolution of a nonempty key path to the `KeyNode` it reaches: the final
lookup result after walking every earlier key through `Sequence` nodes. -/
def chainResolve : SeqMap → List KeyCombination → Option KeyNode
  | _, [] => none
  | m, [k] => m.lookup k
  | m, k :: ks =>
    match m.lookup k with
    | some (.Seq m2) => chainResolve m2 ks
    | _ => none

/-- The literal characters of a key list, as the Emacs history records them:
`Char` keys keep their character (upper-cased under exactly `SHIFT`), other
keys are dropped. -/
def emacsLits (keys : List KeyCombination) : List Char :=
  keys.filterMap fun k =>
    match k.keyCode with
    | .Char c => some (emacsHistChar k.modifier c)
    | _ => none

theorem SeqMap.removeKey_fst (m : SeqMap) (q : KeyCombination) :
    (m.removeKey q).1 = m.lookup q := by
  induction m using SeqMap.recOnMap with
  | hnil => simp [SeqMap.removeKey, SeqMap.lookup]
  | hcons k v rest ih =>
    by_cases h : k = q <;> simp [SeqMap.removeKey, SeqMap.lookup, h, ih]

theorem runEmacs_cons (s : EmacsState) (k : KeyCombination)
    (ks : List KeyCombination) :
    runEmacs s (k :: ks) =
      ((emacsHandleBinding s k.modifier k.keyCode).1 ::
        (runEmacs (emacsHandleBinding s k.modifier k.keyCode).2 ks).1,
       (runEmacs (emacsHandleBinding s k.modifier k.keyCode).2 ks).2) := rfl

theorem runEmacs_append (s : EmacsState) (l1 l2 : List KeyCombination) :
    runEmacs s (l1 ++ l2) =
      ((runEmacs s l1).1 ++ (runEmacs (runEmacs s l1).2 l2).1,
       (runEmacs (runEmacs s l1).2 l2).2) := by
  induction l1 generalizing s with
  | nil => simp [runEmacs]
  | cons k ks ih => simp [runEmacs_cons, ih]

/-- A pending Emacs partial sequence: one step on a key bound to a leaf in the
cursor map fires the event and clears the pending state. -/
theorem emacs_step_matched (kb : Keybindings) (m : SeqMap) (h : List Char)
    (k : KeyCombination) (E : ReedlineEvent)
    (hl : m.lookup k = some (.Event E)) :
    emacsHandleBinding ⟨kb, some ⟨m, h⟩⟩ k.modifier k.keyCode =
      (some E, ⟨kb, none⟩) := by
  cases k with
  | mk km kc =>
    cases kc <;>
      simp_all [emacsHandleBinding, SeqMap.removeKey_fst]

/-- A pending Emacs partial sequence: one step on a key bound to a subtree
re-aims the cursor, extends the recorded literal characters, and reports the
no-op event. -/
theorem emacs_step_pending (kb : Keybindings) (m : SeqMap) (h : List Char)
    (k : KeyCombination) (m2 : SeqMap)
    (hl : m.lookup k = some (.Seq m2)) :
    emacsHandleBinding ⟨kb, some ⟨m, h⟩⟩ k.modifier k.keyCode =
      (some .None, ⟨kb, some ⟨m2, h ++ emacsLits [k]⟩⟩) := by
  cases k with
  | mk km kc =>
    cases kc <;>
      simp_all [emacsHandleBinding, SeqMap.removeKey_fst, emacsLits]

/-- A pending Emacs partial sequence: one step on an unbound key cancels and
replays the recorded characters (history plus the final key's literal) as one
`Edit` of insertions. -/
theorem emacs_step_cancel (kb : Keybindings) (m : SeqMap) (h : List Char)
    (k : KeyCombination) (hl : m.lookup k = none) :
    emacsHandleBinding ⟨kb, some ⟨m, h⟩⟩ k.modifier k.keyCode =
      (some (.Edit ((h ++ emacsLits [k]).map .InsertChar)), ⟨kb, none⟩) := by
  cases k with
  | mk km kc =>
    cases kc <;>
      simp_all [emacsHandleBinding, SeqMap.removeKey_fst, emacsLits]

/-- First key of a multi-key binding: the bound subtree starts the pending
sequence, recording the key's literal character, and reports the no-op
event. -/
theorem emacs_step_first (kb : Keybindings) (k : KeyCombination)
    (m1 : SeqMap) (hl : kb.bindings.lookup k = some (.Seq m1)) :
    emacsHandleBinding ⟨kb, none⟩ k.modifier k.keyCode =
      (some .None, ⟨kb, some ⟨m1, emacsLits [k]⟩⟩) := by
  cases k with
  | mk km kc =>
    cases kc <;>
      simp_all [emacsHandleBinding, Keybindings.findBinding, emacsLits]

theorem emacsLits_cons (k k2 : KeyCombination) (ks : List KeyCombination) :
    emacsLits (k :: k2 :: ks) = emacsLits [k] ++ emacsLits (k2 :: ks) := by
  cases k with
  | mk km kc => cases kc <;> simp [emacsLits]

/-- Walking a pending sequence along keys that chain-resolve to a subtree
yields the no-op event at every step and accumulates exactly the literal
characters. -/
theorem emacs_run_walk :
    ∀ (ks : List KeyCombination) (kb : Keybindings) (m : SeqMap)
      (h : List Char) (mq : SeqMap),
    chainResolve m ks = some (.Seq mq) →
    runEmacs ⟨kb, some ⟨m, h⟩⟩ ks =
      (List.replicate ks.length (some .None),
       ⟨kb, some ⟨mq, h ++ emacsLits ks⟩⟩)
  | [], _, _, _, _, hc => by simp [chainResolve] at hc
  | [k], kb, m, h, mq, hc => by
    simp only [chainResolve] at hc
    simp [runEmacs_cons, emacs_step_pending kb m h k mq hc, runEmacs]
  | k :: k2 :: rest, kb, m, h, mq, hc => by
    simp only [chainResolve] at hc
    cases hl : m.lookup k with
    | none => simp [hl] at hc
    | some v =>
      cases v with
      | Event e => simp [hl] at hc
      | Seq m2 =>
        simp only [hl] at hc
        have ih := emacs_run_walk (k2 :: rest) kb m2 (h ++ emacsLits [k]) mq hc
        rw [runEmacs_cons, emacs_step_pending kb m h k m2 hl]
        simp only [ih]
        simp [List.replicate_succ, emacsLits_cons, List.append_assoc]

/-- Walking a pending sequence along keys whose chain resolution is the bound
leaf: no-op events on every proper prefix, the bound event on the last key,
and the pending state cleared. -/
theorem emacs_run_matched :
    ∀ (ks : List KeyCombination) (kb : Keybindings) (m : SeqMap)
      (h : List Char) (E : ReedlineEvent),
    chainResolve m ks = some (.Event E) → ks ≠ [] →
    runEmacs ⟨kb, some ⟨m, h⟩⟩ ks =
      (List.replicate (ks.length - 1) (some .None) ++ [some E], ⟨kb, none⟩)
  | [], _, _, _, _, hc, hne => absurd rfl hne
  | [k], kb, m, h, E, hc, _ => by
    simp only [chainResolve] at hc
    simp [runEmacs_cons, emacs_step_matched kb m h k E hc, runEmacs]
  | k :: k2 :: rest, kb, m, h, E, hc, _ => by
    simp only [chainResolve] at hc
    cases hl : m.lookup k with
    | none => simp [hl] at hc
    | some v =>
      cases v with
      | Event e => simp [hl] at hc
      | Seq m2 =>
        simp only [hl] at hc
        have ih := emacs_run_matched (k2 :: rest) kb m2 (h ++ emacsLits [k])
          E hc (by simp)
        rw [runEmacs_cons, emacs_step_pending kb m h k m2 hl]
        simp only [ih]
        simp [List.replicate_succ]

theorem emacsLits_append (a b : List KeyCombination) :
    emacsLits (a ++ b) = emacsLits a ++ emacsLits b := by
  simp [emacsLits, List.filterMap_append]

/-- From a pending sequence, a valid walk followed by one unbound key yields
no-op events for the walk and then one `Edit` replaying every recorded
literal character. -/
theorem emacs_run_cancelled (keys : List KeyCombination) (kb : Keybindings)
    (m : SeqMap) (h : List Char) (mq : SeqMap) (x : KeyCombination)
    (hc : chainResolve m keys = some (.Seq mq)) (hx : mq.lookup x = none) :
    runEmacs ⟨kb, some ⟨m, h⟩⟩ (keys ++ [x]) =
      (List.replicate keys.length (some .None) ++
         [some (.Edit ((h ++ emacsLits (keys ++ [x])).map .InsertChar))],
       ⟨kb, none⟩) := by
  rw [runEmacs_append]
  rw [emacs_run_walk keys kb m h mq hc]
  rw [runEmacs_cons]
  rw [emacs_step_cancel kb mq (h ++ emacsLits keys) x hx]
  simp [runEmacs, emacsLits_append, List.append_assoc]

/-! ### Claim C5 -/

/-- C5: in the flat (Emacs) driver, dispatching a key sequence that
chain-resolves to a registered leaf reports the no-op event (Pending) on
every proper prefix and the bound event on the final key; dispatching a valid
prefix (chain-resolving to a subtree) followed by a key unbound at that
cursor replays the entire buffered history as one `Edit` inserting exactly
the literal characters of the plain/shift character keys. -/
theorem c5_emacs_sequence_dispatch :
    (∀ (kb : Keybindings) (k0 : KeyCombination) (ks : List KeyCombination)
       (E : ReedlineEvent),
       chainResolve kb.bindings (k0 :: ks) = some (.Event E) → ks ≠ [] →
       runEmacs ⟨kb, none⟩ (k0 :: ks) =
         (List.replicate ks.length (some .None) ++ [some E], ⟨kb, none⟩)) ∧
    (∀ (kb : Keybindings) (keys : List KeyCombination) (x : KeyCombination)
       (mq : SeqMap),
       keys ≠ [] → chainResolve kb.bindings keys = some (.Seq mq) →
       mq.lookup x = none →
       runEmacs ⟨kb, none⟩ (keys ++ [x]) =
         (List.replicate keys.length (some .None) ++
            [some (.Edit ((emacsLits (keys ++ [x])).map .InsertChar))],
          ⟨kb, none⟩)) := by
  constructor
  · intro kb k0 ks E hc hne
    cases ks with
    | nil => exact absurd rfl hne
    | cons k1 rest =>
      simp only [chainResolve] at hc
      cases hl : kb.bindings.lookup k0 with
      | none => simp [hl] at hc
      | some v =>
        cases v with
        | Event e => simp [hl] at hc
        | Seq m1 =>
          simp only [hl] at hc
          rw [runEmacs_cons, emacs_step_first kb k0 m1 hl]
          rw [emacs_run_matched (k1 :: rest) kb m1 (emacsLits [k0]) E hc
                (by simp)]
          simp [List.replicate_succ]
  · intro kb keys x mq hne hc hx
    cases keys with
    | nil => exact absurd rfl hne
    | cons k0 krest =>
      cases krest with
      | nil =>
        simp only [chainResolve] at hc
        rw [List.cons_append, List.nil_append, runEmacs_cons,
            emacs_step_first kb k0 mq hc, runEmacs_cons,
            emacs_step_cancel kb mq (emacsLits [k0]) x hx]
        simp [runEmacs, emacsLits_cons, List.replicate_succ]
      | cons k1 r =>
        simp only [chainResolve] at hc
        cases hl : kb.bindings.lookup k0 with
        | none => simp [hl] at hc
        | some v =>
          cases v with
          | Event e => simp [hl] at hc
          | Seq m1 =>
            simp only [hl] at hc
            rw [List.cons_append, runEmacs_cons,
                emacs_step_first kb k0 m1 hl,
                emacs_run_cancelled (k1 :: r) kb m1 (emacsLits [k0]) mq x
                  hc hx]
            simp [List.replicate_succ, emacsLits_cons, emacsLits_append,
                  List.append_assoc]

/-- C5 (witness): with `g g → ClearScreen` registered, sending `g`,`g` gives
no-op then ClearScreen, and sending `g`,`x` gives no-op then one `Edit`
inserting the literal characters `g` and `x`. -/
theorem c5_emacs_witness :
    runEmacs ⟨Keybindings.empty.addBinding kcG [kcG] .ClearScreen, none⟩
        [kcG, kcG] =
      ([some .None, some .ClearScreen],
       ⟨Keybindings.empty.addBinding kcG [kcG] .ClearScreen, none⟩) ∧
    runEmacs ⟨Keybindings.empty.addBinding kcG [kcG] .ClearScreen, none⟩
        [kcG, kcX] =
      ([some .None, some (.Edit [.InsertChar 'g', .InsertChar 'x'])],
       ⟨Keybindings.empty.addBinding kcG [kcG] .ClearScreen, none⟩) := by
  constructor
  · have := c5_emacs_sequence_dispatch.1
      (Keybindings.empty.addBinding kcG [kcG] .ClearScreen)
      kcG [kcG] .ClearScreen rfl (by simp)
    simpa using this
  · have := c5_emacs_sequence_dispatch.2
      (Keybindings.empty.addBinding kcG [kcG] .ClearScreen)
      [kcG] kcX (SeqMap.cons kcG (.Event .ClearScreen) .nil)
      (by simp) rfl rfl
    simpa [emacsLits, kcG, kcX, emacsHistChar] using this

/-! ### Claim C9 -/

/-- C9: registration with an `UntilFound` event carrying an empty alternative
list fails at registration time (the eager assertion, modelled as `none`),
before the table is touched; registration with a non-empty alternative list
(even one whose own alternatives are empty `UntilFound`s — the check is
top-level only), or with any other event, succeeds and performs the ordinary
`add_binding`. -/
theorem c9_addBinding_untilFound_assertion :
    (∀ (kb : Keybindings) (k : KeyCombination) (ks : List KeyCombination),
       kb.addBindingChecked k ks (.UntilFound []) = none) ∧
    (∀ (kb : Keybindings) (k : KeyCombination) (ks : List KeyCombination)
       (e : ReedlineEvent) (evs : List ReedlineEvent),
       kb.addBindingChecked k ks (.UntilFound (e :: evs)) =
         some (kb.addBinding k ks (.UntilFound (e :: evs)))) ∧
    (∀ (kb : Keybindings) (k : KeyCombination) (ks : List KeyCombination)
       (cmd : ReedlineEvent),
       (∀ evs, cmd ≠ .UntilFound evs) →
       kb.addBindingChecked k ks cmd = some (kb.addBinding k ks cmd)) := by
  refine ⟨fun _ _ _ => rfl, fun _ _ _ _ _ => rfl, ?_⟩
  intro kb k ks cmd hne
  cases cmd <;> first
    | rfl
    | exact absurd rfl (hne _)

/-- C9 (witness): the success case applied at a concrete non-`UntilFound`
event. -/
theorem c9_addBinding_witness :
    Keybindings.empty.addBindingChecked kcA [] .ClearScreen =
      some (Keybindings.empty.addBinding kcA [] .ClearScreen) :=
  c9_addBinding_untilFound_assertion.2.2 Keybindings.empty kcA [] .ClearScreen
    (fun _ h => ReedlineEvent.noConfusion h)

/-! ### Line buffer and grapheme queries (helix/mod.rs lines 348-360) -/

/-- The external line buffer's narrow read-only query surface, at character
granularity (exact for ASCII content). -/
structure LineBuffer where
  buffer : List Char
  insertionPoint : Nat

/-- Modelled from the spec: `is_whitespace_str` lives in the hinter module,
absent from the provided sources; the spec only uses it as "the grapheme is
whitespace". -/
def isWhitespaceStr (s : List Char) : Bool :=
  s.all (·.isWhitespace)

/-- `grapheme_right_n` (helix/mod.rs lines 348-351): the n-th grapheme at or
after the cursor, or the whole remaining slice when out of graphemes.  The
slice `[ip..]` panics when the insertion point exceeds the buffer length. -/
def graphemeRightN (lb : LineBuffer) (n : Nat) : Except String (List Char) :=
  if lb.insertionPoint ≤ lb.buffer.length then
    let buf := lb.buffer.drop lb.insertionPoint
    .ok (match buf.get? n with
         | some c => [c]
         | none => buf)
  else .error "byte index out of bounds"

/-- `grapheme_left_n` (helix/mod.rs lines 353-360): guarded by
`insertion_point() > len() - 1` where `len() - 1` wraps in `usize`
arithmetic, then slices `[..=insertion_point()]` — which panics (the
`Except.error`) on an empty buffer, where the wrap defeats the guard. -/
def graphemeLeftN (lb : LineBuffer) (n : Nat) : Except String (List Char) :=
  if lb.insertionPoint > (lb.buffer.length + (2 ^ 64 - 1)) % 2 ^ 64 then
    .ok []
  else if lb.insertionPoint + 1 ≤ lb.buffer.length then
    let buf := lb.buffer.take (lb.insertionPoint + 1)
    .ok (match buf.reverse.get? n with
         | some c => [c]
         | none => buf)
  else .error "byte index out of bounds"

/-! ### The Helix-style driver (helix/mod.rs) -/

/-- `MinorMode` (helix/mod.rs lines 29-33). -/
inductive HelixMinorMode where
  | Select
  | Match
deriving DecidableEq, Repr

/-- `Mode` (helix/mod.rs lines 23-27). -/
inductive HelixMode where
  | Normal (minor : Option HelixMinorMode)
  | Insert
deriving DecidableEq, Repr

/-- The `Helix` driver state; the boxed `on_next_char` closure is modelled as
an optional function value. -/
structure HelixState where
  insertKeybindings : Keybindings
  normalKeybindings : Keybindings
  mode : HelixMode
  count : Option Nat
  pending : Option PartialKeySequence
  onNextChar : Option (KeyCombination → Option ReedlineEvent)

/-- `Helix::set_mode` (helix/mod.rs lines 72-77). -/
def helixSetMode (s : HelixState) (m : HelixMode) : HelixState :=
  { s with mode := m, count := none, pending := none, onNextChar := none }

/-- `Helix::active_bindings`. -/
def helixActiveBindings (s : HelixState) : Keybindings :=
  match s.mode with
  | .Normal _ => s.normalKeybindings
  | .Insert => s.insertKeybindings

/-- `NonZeroUsize::new`. -/
def nonZeroNew (n : Nat) : Option Nat :=
  if n = 0 then none else some n

/-- `c.to_digit(10).unwrap()` for a decimal digit. -/
def digitVal (c : Char) : Nat :=
  c.toNat - 48

/-- `apply_multiplier` (helix/mod.rs lines 362-364). -/
def applyMultiplier (event : ReedlineEvent) (count : Nat) : ReedlineEvent :=
  .Multiple (List.replicate count event)

/-- `Vec::insert(len - 1, x)`: insert before the last element; on an empty
vector the index computation wraps / the insert panics. -/
def insertBeforeLast {α : Type} (l : List α) (x : α) :
    Except String (List α) :=
  match l with
  | [] => .error "insertion index out of bounds"
  | _ => .ok (l.take (l.length - 1) ++ x :: l.drop (l.length - 1))

/-- `Helix::handle_helix_event` (helix/mod.rs lines 182-345): take the count
(defaulting to 1), then interpret the Helix event; word motions consult the
grapheme queries (whose panic propagates), `FindTillChar` installs the
pending single-character continuation. -/
def handleHelixEvent (s0 : HelixState) (lb : LineBuffer)
    (event : HelixEvent) : Except String (Option ReedlineEvent × HelixState) := do
  let count := s0.count.getD 1
  let s := { s0 with count := none }
  match event with
  | .NormalMode =>
    let prevMode := s.mode
    let s := helixSetMode s (.Normal none)
    pure (some (if prevMode = .Insert then ReedlineEvent.Repaint else .None), s)
  | .Normal helixNormal =>
    match s.mode with
    | .Insert => pure (some .None, s)
    | .Normal minor =>
      let select := decide (minor = some .Select)
      match helixNormal with
      | .InsertMode => pure (some .Repaint, helixSetMode s .Insert)
      | .SelectMode =>
        let s :=
          if minor = some .Select then helixSetMode s (.Normal none)
          else helixSetMode s (.Normal (some .Select))
        pure (some .None, s)
      | .MoveCharLeft =>
        pure (some (applyMultiplier (.Edit [.MoveLeft select]) count), s)
      | .MoveVisualLineDown =>
        pure (some (applyMultiplier .Down count), s)
      | .MoveVisualLineUp =>
        pure (some (applyMultiplier .Up count), s)
      | .MoveCharRight =>
        pure (some (applyMultiplier (.Edit [.MoveRight select]) count), s)
      | .MoveNextWordStart =>
        let base := List.replicate count
          (EditCommand.MoveWordRightBeforeStart true)
        let base ← if !select then insertBeforeLast base .ClearSelection
                   else pure base
        let g0 ← graphemeRightN lb 0
        let cond ← if isWhitespaceStr g0 then do
            let g1 ← graphemeRightN lb 1
            pure (!isWhitespaceStr g1)
          else pure false
        let base ← if cond || decide (count > 1) then
            insertBeforeLast base (.MoveRight select)
          else pure base
        pure (some (.Edit base), s)
      | .MovePrevWordStart =>
        let base := List.replicate count (EditCommand.MoveWordLeft true)
        let base ← if !select then insertBeforeLast base .ClearSelection
                   else pure base
        let gl ← graphemeLeftN lb 1
        let base ← if isWhitespaceStr gl then
            insertBeforeLast base (.MoveLeft select)
          else pure base
        pure (some (.Edit base), s)
      | .MoveNextWordEnd =>
        let base := List.replicate count (EditCommand.MoveWordRightEnd true)
        let base ← if !select then insertBeforeLast base .ClearSelection
                   else pure base
        let g1 ← graphemeRightN lb 1
        let base ← if isWhitespaceStr g1 then
            insertBeforeLast base (.MoveRight select)
          else pure base
        pure (some (.Edit base), s)
      | .MoveNextLongWordStart =>
        let base := List.replicate count
          (EditCommand.MoveBigWordRightBeforeStart true)
        let base ← if !select then insertBeforeLast base .ClearSelection
                   else pure base
        let g0 ← graphemeRightN lb 0
        let cond ← if isWhitespaceStr g0 then do
            let g1 ← graphemeRightN lb 1
            pure (!isWhitespaceStr g1)
          else pure false
        let base ← if cond || decide (count > 1) then
            insertBeforeLast base (.MoveRight select)
          else pure base
        pure (some (.Edit base), s)
      | .MovePrevLongWordStart =>
        let base := List.replicate count (EditCommand.MoveBigWordLeft true)
        let base ← if !select then insertBeforeLast base .ClearSelection
                   else pure base
        let gl ← graphemeLeftN lb 1
        let base ← if isWhitespaceStr gl then
            insertBeforeLast base (.MoveLeft select)
          else pure base
        pure (some (.Edit base), s)
      | .MoveNextLongWordEnd =>
        let base := List.replicate count
          (EditCommand.MoveBigWordRightEnd true)
        let base ← if !select then insertBeforeLast base .ClearSelection
                   else pure base
        let g1 ← graphemeRightN lb 1
        let base ← if isWhitespaceStr g1 then
            insertBeforeLast base (.MoveRight select)
          else pure base
        pure (some (.Edit base), s)
      | .FindTillChar =>
        let f : KeyCombination → Option ReedlineEvent := fun kc =>
          match kc.keyCode with
          | .Char c =>
            let base := List.replicate count
              (EditCommand.MoveRightBefore c true)
            some (.Edit (if select then .Clear :: base else base))
          | _ => none
        pure (some .None, { s with onNextChar := some f })

/-- A plain or shift-modified character key (the first pattern of the
`cancel_key_sequence` loop). -/
def plainShiftChar (kc : KeyCombination) : Option Char :=
  match kc with
  | ⟨km, .Char c⟩ =>
    if km = kmSHIFT ∨ km = kmNONE then some c else none
  | _ => none

/-- The per-key loop of `Helix::cancel_key_sequence` (helix/mod.rs lines
92-111): plain/shift character keys insert literally only in Insert mode;
every other key is looked up as a single top-level binding in the currently
active table (bound Helix events run through `handle_helix_event`, other
bound events are emitted, unbound keys are dropped, a nested subtree is the
`unreachable!`). -/
def helixCancelLoop (lb : LineBuffer) :
    HelixState → List KeyCombination → List ReedlineEvent →
    Except String (List ReedlineEvent × HelixState)
  | s, [], acc => .ok (acc, s)
  | s, kc :: rest, acc =>
    match plainShiftChar kc with
    | some c =>
      let ev : List ReedlineEvent :=
        if s.mode = .Insert then [.Edit [.InsertChar c]] else []
      helixCancelLoop lb s rest (acc ++ ev)
    | none =>
      match (helixActiveBindings s).findBinding kc.modifier
          (toLowercaseKeyCode kc.keyCode) with
      | none => helixCancelLoop lb s rest acc
      | some (.Event (.Helix hev)) => do
        let (r, s') ← handleHelixEvent s lb hev
        helixCancelLoop lb s' rest (acc ++ r.toList)
      | some (.Event e) => helixCancelLoop lb s rest (acc ++ [e])
      | some (.Seq _) => .error "internal error: entered unreachable code"

/-- `Helix::cancel_key_sequence` (helix/mod.rs lines 86-114): clear the
count, reinterpret every buffered key, and wrap any produced events in a
`Multiple` (no event at all when nothing was produced). -/
def helixCancelKeySequence (s : HelixState) (lb : LineBuffer)
    (keys : List KeyCombination) :
    Except String (Option ReedlineEvent × HelixState) := do
  let s := { s with count := none }
  let (events, s') ← helixCancelLoop lb s keys []
  pure (if events.isEmpty then none else some (.Multiple events), s')

/-- `Helix::handle_binding` (helix/mod.rs lines 116-180): Escape is handled
first (clearing the continuation, then cancelling a pending sequence or
switching to Normal); a pending continuation unconditionally consumes the
key; otherwise the pending sequence — or a fresh one from a top-level lookup
— is advanced; with no binding at all, characters insert in Insert mode and
digits accumulate the count in Normal mode. -/
def helixHandleBinding (s : HelixState) (lb : LineBuffer)
    (kc : KeyCombination) : Except String (Option ReedlineEvent × HelixState) :=
  if kc.keyCode = .Esc then
    let s := { s with onNextChar := none }
    match s.pending with
    | some p => helixCancelKeySequence { s with pending := none } lb p.cancel
    | none => handleHelixEvent s lb .NormalMode
  else
    match s.onNextChar with
    | some f => .ok (f kc, { s with onNextChar := none })
    | none =>
      let s1 := { s with pending := none }
      let pOpt : Option PartialKeySequence :=
        match s.pending with
        | some p => some p
        | none =>
          ((helixActiveBindings s).findBinding kc.modifier
              (toLowercaseKeyCode kc.keyCode)).map
            fun keyNode => ⟨SeqMap.cons kc keyNode .nil, []⟩
      match pOpt with
      | none =>
        match kc.keyCode with
        | .Char c =>
          match s1.mode with
          | .Insert => .ok (some (.Edit [.InsertChar c]), s1)
          | .Normal _ =>
            match s1.count with
            | some countv =>
              if '0' ≤ c ∧ c ≤ '9' then
                let n := digitVal c
                let newCount := (countv * 10 + n) % 2 ^ 64
                .ok (none, if countv < 100000000 then
                             { s1 with count := nonZeroNew newCount }
                           else s1)
              else .ok (none, s1)
            | none =>
              if '1' ≤ c ∧ c ≤ '9' then
                .ok (none, { s1 with count := nonZeroNew (digitVal c) })
              else .ok (none, s1)
        | _ => .ok (none, s1)
      | some p =>
        match p.advance kc with
        | (.Pending, p') => .ok (none, { s1 with pending := some p' })
        | (.Matched (.Helix hev), _) => handleHelixEvent s1 lb hev
        | (.Matched e, _) => .ok (some e, s1)
        | (.Cancelled ks, _) => helixCancelKeySequence s1 lb ks

/-- crossterm `Event` (the raw input event). -/
inductive CEvent where
  | Key (code : KeyCode) (modifiers : KeyModifiers)
  | Mouse
  | Resize (w h : Nat)
  | FocusGained
  | FocusLost
  | Paste (body : List Char)

/-- `str::replace("\r\n", "\n")`: left-to-right non-overlapping. -/
def replaceCRLF : List Char → List Char
  | [] => []
  | '\r' :: '\n' :: rest => '\n' :: replaceCRLF rest
  | c :: rest => c :: replaceCRLF rest

/-- `str::replace('\r', "\n")`. -/
def replaceCR (body : List Char) : List Char :=
  body.map fun c => if c = '\r' then '\n' else c

/-- `<Helix as EditMode>::parse_event` (helix/mod.rs lines 367-388). -/
def helixParseEvent (s : HelixState) (lb : LineBuffer) (ev : CEvent) :
    Except String (ReedlineEvent × HelixState) :=
  match ev with
  | .Key code mods => do
    let (r, s') ← helixHandleBinding s lb ⟨mods, code⟩
    pure (r.getD .None, s')
  | .Mouse => .ok (.Mouse, s)
  | .Resize w h => .ok (.Resize w h, s)
  | .FocusGained => .ok (.None, s)
  | .FocusLost => .ok (.None, s)
  | .Paste body => .ok (.Edit [.InsertString (replaceCR (replaceCRLF body))], s)

/-- `impl Default for Helix` (helix/mod.rs lines 49-60): Insert mode, both
tables `Keybindings::default()` (empty), nothing pending. -/
def helixDefault : HelixState :=
  { insertKeybindings := Keybindings.empty
    normalKeybindings := Keybindings.empty
    mode := .Insert
    count := none
    pending := none
    onNextChar := none }

/-! ### Shared default binding blocks (keybindings.rs lines 178-565) -/

/-- `edit_bind`. -/
def editBind (c : EditCommand) : ReedlineEvent :=
  .Edit [c]

/-- `add_common_control_bindings`. -/
def addCommonControlBindings (kb : Keybindings) : Keybindings :=
  ((((((kb.addBinding ⟨kmNONE, .Esc⟩ [] .Esc).addBinding
    ⟨kmCONTROL, .Char 'c'⟩ [] .CtrlC).addBinding
    ⟨kmCONTROL, .Char 'd'⟩ [] .CtrlD).addBinding
    ⟨kmCONTROL, .Char 'l'⟩ [] .ClearScreen).addBinding
    ⟨kmCONTROL, .Char 'r'⟩ [] .SearchHistory).addBinding
    ⟨kmCONTROL, .Char 'o'⟩ [] .OpenEditor)

/-- `add_common_navigation_bindings`. -/
def addCommonNavigationBindings (kb : Keybindings) : Keybindings :=
  (((((((((((((kb.addBinding ⟨kmNONE, .Up⟩ []
    (.UntilFound [.MenuUp, .Up])).addBinding ⟨kmNONE, .Down⟩ []
    (.UntilFound [.MenuDown, .Down])).addBinding ⟨kmNONE, .Left⟩ []
    (.UntilFound [.MenuLeft, .Left])).addBinding ⟨kmNONE, .Right⟩ []
    (.UntilFound [.HistoryHintComplete, .MenuRight, .Right])).addBinding
    ⟨kmCONTROL, .Left⟩ [] (editBind (.MoveWordLeft false))).addBinding
    ⟨kmCONTROL, .Right⟩ []
    (.UntilFound [.HistoryHintWordComplete,
      editBind (.MoveWordRight false)])).addBinding
    ⟨kmNONE, .Home⟩ [] (editBind (.MoveToLineStart false))).addBinding
    ⟨kmCONTROL, .Char 'a'⟩ [] (editBind (.MoveToLineStart false))).addBinding
    ⟨kmNONE, .End⟩ []
    (.UntilFound [.HistoryHintComplete,
      editBind (.MoveToLineEnd false)])).addBinding
    ⟨kmCONTROL, .Char 'e'⟩ []
    (.UntilFound [.HistoryHintComplete,
      editBind (.MoveToLineEnd false)])).addBinding
    ⟨kmCONTROL, .Home⟩ [] (editBind (.MoveToStart false))).addBinding
    ⟨kmCONTROL, .End⟩ [] (editBind (.MoveToEnd false))).addBinding
    ⟨kmCONTROL, .Char 'p'⟩ []
    (.UntilFound [.MenuUp, .Up])).addBinding
    ⟨kmCONTROL, .Char 'n'⟩ [] (.UntilFound [.MenuDown, .Down])

/-- `add_common_edit_bindings` (without the `system_clipboard`-gated
bindings, which are compiled out by default). -/
def addCommonEditBindings (kb : Keybindings) : Keybindings :=
  ((((((((kb.addBinding ⟨kmNONE, .Backspace⟩ []
    (editBind .Backspace)).addBinding ⟨kmNONE, .Delete⟩ []
    (editBind .Delete)).addBinding ⟨kmCONTROL, .Backspace⟩ []
    (editBind .BackspaceWord)).addBinding ⟨kmCONTROL, .Delete⟩ []
    (editBind .DeleteWord)).addBinding ⟨kmCONTROL, .Char 'h'⟩ []
    (editBind .Backspace)).addBinding ⟨kmCONTROL, .Char 'w'⟩ []
    (editBind .BackspaceWord)).addBinding ⟨kmALT, .Enter⟩ []
    (editBind .InsertNewline)).addBinding ⟨kmSHIFT, .Enter⟩ []
    (editBind .InsertNewline)).addBinding ⟨kmCONTROL, .Char 'j'⟩ [] .Enter

/-- `add_common_selection_bindings`. -/
def addCommonSelectionBindings (kb : Keybindings) : Keybindings :=
  ((((((((kb.addBinding ⟨kmSHIFT, .Left⟩ []
    (editBind (.MoveLeft true))).addBinding ⟨kmSHIFT, .Right⟩ []
    (editBind (.MoveRight true))).addBinding
    ⟨kmOr kmSHIFT kmCONTROL, .Left⟩ []
    (editBind (.MoveWordLeft true))).addBinding
    ⟨kmOr kmSHIFT kmCONTROL, .Right⟩ []
    (editBind (.MoveWordRight true))).addBinding ⟨kmSHIFT, .End⟩ []
    (editBind (.MoveToLineEnd true))).addBinding
    ⟨kmOr kmSHIFT kmCONTROL, .End⟩ []
    (editBind (.MoveToEnd true))).addBinding ⟨kmSHIFT, .Home⟩ []
    (editBind (.MoveToLineStart true))).addBinding
    ⟨kmOr kmSHIFT kmCONTROL, .Home⟩ []
    (editBind (.MoveToStart true))).addBinding
    ⟨kmOr kmCONTROL kmSHIFT, .Char 'a'⟩ [] (editBind .SelectAll)

/-- `default_helix_normal_keybindings` (helix/keybindings.rs lines 15-140). -/
def defaultHelixNormalKeybindings : Keybindings :=
  (((((((((((((addCommonSelectionBindings
    (addCommonNavigationBindings
      (addCommonControlBindings Keybindings.empty))).addBinding
    ⟨kmNONE, .Esc⟩ [] (.Helix .NormalMode)).addBinding
    ⟨kmNONE, .Char 'i'⟩ [] (.Helix (.Normal .InsertMode))).addBinding
    ⟨kmNONE, .Char 'v'⟩ [] (.Helix (.Normal .SelectMode))).addBinding
    ⟨kmNONE, .Char 'h'⟩ [] (.Helix (.Normal .MoveCharLeft))).addBinding
    ⟨kmNONE, .Char 'j'⟩ [] (.Helix (.Normal .MoveVisualLineDown))).addBinding
    ⟨kmNONE, .Char 'k'⟩ [] (.Helix (.Normal .MoveVisualLineUp))).addBinding
    ⟨kmNONE, .Char 'l'⟩ [] (.Helix (.Normal .MoveCharRight))).addBinding
    ⟨kmNONE, .Char 'w'⟩ [] (.Helix (.Normal .MoveNextWordStart))).addBinding
    ⟨kmNONE, .Char 'b'⟩ [] (.Helix (.Normal .MovePrevWordStart))).addBinding
    ⟨kmNONE, .Char 'e'⟩ [] (.Helix (.Normal .MoveNextWordEnd))).addBinding
    ⟨kmSHIFT, .Char 'w'⟩ []
    (.Helix (.Normal .MoveNextLongWordStart))).addBinding
    ⟨kmSHIFT, .Char 'b'⟩ []
    (.Helix (.Normal .MovePrevLongWordStart))).addBinding
    ⟨kmSHIFT, .Char 'e'⟩ [] (.Helix (.Normal .MoveNextLongWordEnd))

/-- `default_helix_insert_keybindings` (helix/keybindings.rs lines 143-161). -/
def defaultHelixInsertKeybindings : Keybindings :=
  (addCommonSelectionBindings
    (addCommonEditBindings
      (addCommonNavigationBindings
        (addCommonControlBindings Keybindings.empty)))).addBinding
    ⟨kmNONE, .Esc⟩ [] (.Helix .NormalMode)

/-! ### The Vi-style driver (vi/mod.rs) -/

/-- `ViMode` (vi/mod.rs lines 25-30). -/
inductive ViMode where
  | Normal
  | Insert
  | Visual
deriving DecidableEq, Repr

/-- `ViCharSearch` (vi/motion.rs, absent from the provided sources): the
remembered find/till direction and target, reconstructed from its uses in
vi/command.rs. -/
inductive ViCharSearch where
  | ToRight (c : Char)
  | TillRight (c : Char)
  | ToLeft (c : Char)
  | TillLeft (c : Char)

/-- The `Vi` driver state. -/
structure ViState where
  cache : List Char
  insertKeybindings : Keybindings
  normalKeybindings : Keybindings
  mode : ViMode
  previous : Option ReedlineEvent
  lastCharSearch : Option ViCharSearch
  pending : Option PartialKeySequence

/-- `Vi::active_bindings`. -/
def viActiveBindings (s : ViState) : Keybindings :=
  match s.mode with
  | .Normal => s.normalKeybindings
  | .Visual => s.normalKeybindings
  | .Insert => s.insertKeybindings

/-- The cancelled-sequence replay loop of `Vi::handle_binding` (vi/mod.rs
lines 101-115): character keys (any modifier, any mode) become literal
insertions; other keys are looked up as single top-level bindings — a bound
leaf is emitted, an unbound key is dropped, a nested subtree is the
`unreachable!`. -/
def viReplay (s : ViState) : List KeyCombination →
    Except String (List ReedlineEvent)
  | [] => .ok []
  | kc :: rest =>
    match kc.keyCode with
    | .Char c => do
      let evs ← viReplay s rest
      pure (.Edit [.InsertChar c] :: evs)
    | _ =>
      match (viActiveBindings s).findBinding kc.modifier
          (toLowercaseKeyCode kc.keyCode) with
      | some (.Event e) => do
        let evs ← viReplay s rest
        pure (e :: evs)
      | some (.Seq _) => .error "internal error: entered unreachable code"
      | none => viReplay s rest

/-- `Vi::handle_binding` (vi/mod.rs lines 76-119).  The pending sequence —
or a fresh one built from a top-level lookup (a bound `Sequence` becomes the
cursor directly; a bound leaf is re-wrapped under the pressed key) — is
advanced by the pressed key; `Pending` produces no event (and, as in the
source, the partial sequence is not stored back), `Matched` fires, and
`Cancelled` replays the buffered history.  With no binding at all, characters
insert in Insert mode only. -/
def viHandleBinding (s : ViState) (kc : KeyCombination) :
    Except String (Option ReedlineEvent × ViState) :=
  let s1 := { s with pending := none }
  let pOpt : Option PartialKeySequence :=
    match s.pending with
    | some p => some p
    | none =>
      ((viActiveBindings s).findBinding kc.modifier
          (toLowercaseKeyCode kc.keyCode)).map
        fun keyNode =>
          match keyNode with
          | .Seq sequence => ⟨sequence, []⟩
          | .Event e => ⟨SeqMap.cons kc (.Event e) .nil, []⟩
  match pOpt with
  | none =>
    match s1.mode, kc.keyCode with
    | .Insert, .Char c => .ok (some (.Edit [.InsertChar c]), s1)
    | _, _ => .ok (none, s1)
  | some p =>
    match p.advance kc with
    | (.Pending, _) => .ok (none, s1)
    | (.Matched e, _) => .ok (some e, s1)
    | (.Cancelled ks, _) => do
      let evs ← viReplay s1 ks
      pure (some (.Multiple evs), s1)

/-- The abstract Vi grammar step: vi/parser.rs (`parse`, validity,
completeness, mode changes and event production over the buffered character
queue) is absent from the provided sources, so the body of vi/mod.rs lines
151-166 — everything after the character has been pushed onto the cache — is
a parameter; the claims hold for every instantiation. -/
def ViGrammarStep : Type :=
  ViState → ReedlineEvent × ViState

/-- `<Vi as EditMode>::parse_event` (vi/mod.rs lines 123-229), parameterised
by the grammar step `g`. -/
def viParseEvent (g : ViGrammarStep) (s : ViState) (ev : CEvent) :
    Except String (ReedlineEvent × ViState) :=
  match ev with
  | .Key code mods =>
    match code with
    | .Char c0 =>
      match s.mode with
      | .Insert => do
        let (r, s1) ← viHandleBinding s ⟨mods, .Char c0⟩
        match r with
        | some e => pure (e, s1)
        | none =>
          if mods = kmNONE ∨ mods = kmSHIFT ∨
              mods = kmOr kmCONTROL kmALT ∨
              mods = kmOr (kmOr kmCONTROL kmALT) kmSHIFT then
            pure (.Edit [.InsertChar c0], s1)
          else
            pure (.None, s1)
      | _ => do
        let c := asciiLower c0
        let (r, s1) ← viHandleBinding s ⟨mods, .Char c⟩
        match r with
        | some e => pure (e, s1)
        | none =>
          if s1.mode = .Normal ∧ mods = kmNONE ∧ c0 = 'v' then
            pure (.Multiple [.Esc, .Repaint],
                  { s1 with cache := [], mode := .Visual })
          else if mods = kmNONE ∨ mods = kmSHIFT then
            let s2 := { s1 with cache := s1.cache ++
              [if mods = kmSHIFT then asciiUpper c else c] }
            pure (g s2)
          else
            pure (.None, s1)
    | _ =>
      if mods = kmNONE ∧ code = .Esc then
        .ok (.Multiple [.Esc, .Repaint],
             { s with cache := [], pending := none, mode := .Normal })
      else if mods = kmNONE ∧ code = .Enter then
        .ok (.Enter, { s with mode := .Insert })
      else do
        let (r, s1) ← viHandleBinding s ⟨mods, code⟩
        pure (r.getD .None, s1)
  | .Mouse => .ok (.Mouse, s)
  | .Resize w h => .ok (.Resize w h, s)
  | .FocusGained => .ok (.None, s)
  | .FocusLost => .ok (.None, s)
  | .Paste body => .ok (.Edit [.InsertString (replaceCR (replaceCRLF body))], s)

/-! ### The Vi command grammar (vi/command.rs) -/

/-- `Command` (vi/command.rs lines 113-136). -/
inductive Command where
  | Incomplete
  | Delete
  | DeleteChar
  | ReplaceChar (c : Char)
  | SubstituteCharWithInsert
  | PasteAfter
  | PasteBefore
  | EnterViAppend
  | EnterViInsert
  | Undo
  | ChangeToLineEnd
  | DeleteToEnd
  | AppendToEnd
  | PrependToStart
  | RewriteCurrentLine
  | Change
  | HistorySearch
  | Switchcase
  | RepeatLastAction
  | ChangeInside (c : Char)
  | DeleteInside (c : Char)

/-- `ReedlineOption` (vi/parser.rs, absent from the provided sources):
reconstructed from its uses in vi/command.rs. -/
inductive ReedlineOption where
  | Event (e : ReedlineEvent)
  | Edit (c : EditCommand)
  | Incomplete

/-- `is_valid_change_inside_left` (vi/command.rs lines 354-356). -/
def isValidChangeInsideLeft (c : Char) : Bool :=
  c = '(' || c = '[' || c = '\x7b' || c = '"' || c = '\'' || c = '`' || c = '<'

/-- `is_valid_change_inside_right` (vi/command.rs lines 358-360). -/
def isValidChangeInsideRight (c : Char) : Bool :=
  c = ')' || c = ']' || c = '\x7d' || c = '"' || c = '\'' || c = '`' || c = '>'

/-- `bracket_for` (vi/command.rs lines 340-352). -/
def bracketFor (c : Char) : Char :=
  if c = '(' then ')'
  else if c = '[' then ']'
  else if c = '\x7b' then '\x7d'
  else if c = '<' then '>'
  else if c = ')' then '('
  else if c = ']' then '['
  else if c = '\x7d' then '\x7b'
  else if c = '>' then '<'
  else c

/-- `parse_command` (vi/command.rs lines 5-111) over the buffered character
queue. -/
def parseCommand : List Char → Option Command
  | 'd' :: rest =>
    match rest with
    | 'i' :: rest2 =>
      match rest2 with
      | c :: _ =>
        if isValidChangeInsideLeft c || isValidChangeInsideRight c then
          some (.DeleteInside c)
        else none
      | [] => none
    | _ => some .Delete
  | 'p' :: _ => some .PasteAfter
  | 'P' :: _ => some .PasteBefore
  | 'i' :: _ => some .EnterViInsert
  | 'a' :: _ => some .EnterViAppend
  | 'u' :: _ => some .Undo
  | 'c' :: rest =>
    match rest with
    | 'i' :: rest2 =>
      match rest2 with
      | c :: _ =>
        if isValidChangeInsideLeft c || isValidChangeInsideRight c then
          some (.ChangeInside c)
        else none
      | [] => none
    | _ => some .Change
  | 'x' :: _ => some .DeleteChar
  | 'r' :: rest =>
    match rest with
    | c :: _ => some (.ReplaceChar c)
    | [] => some .Incomplete
  | 's' :: _ => some .SubstituteCharWithInsert
  | '?' :: _ => some .HistorySearch
  | 'C' :: _ => some .ChangeToLineEnd
  | 'D' :: _ => some .DeleteToEnd
  | 'I' :: _ => some .PrependToStart
  | 'A' :: _ => some .AppendToEnd
  | 'S' :: _ => some .RewriteCurrentLine
  | '~' :: _ => some .Switchcase
  | '.' :: _ => some .RepeatLastAction
  | _ => none

/-- `Command::to_reedline` (vi/command.rs lines 151-218); the only state the
source reads is `vi_state.previous` (for `RepeatLastAction`), passed here
explicitly. -/
def Command.toReedline (cmd : Command)
    (previous : Option ReedlineEvent) : List ReedlineOption :=
  match cmd with
  | .EnterViInsert => [.Event .Repaint]
  | .EnterViAppend => [.Edit (.MoveRight false)]
  | .PasteAfter => [.Edit .PasteCutBufferAfter]
  | .PasteBefore => [.Edit .PasteCutBufferBefore]
  | .Undo => [.Edit .Undo]
  | .ChangeToLineEnd => [.Edit .ClearToLineEnd]
  | .DeleteToEnd => [.Edit .CutToLineEnd]
  | .AppendToEnd => [.Edit (.MoveToLineEnd false)]
  | .PrependToStart => [.Edit (.MoveToLineStart false)]
  | .RewriteCurrentLine => [.Edit .CutCurrentLine]
  | .DeleteChar => [.Edit .CutChar]
  | .ReplaceChar c => [.Edit (.ReplaceChar c)]
  | .SubstituteCharWithInsert => [.Edit .CutChar]
  | .HistorySearch => [.Event .SearchHistory]
  | .Switchcase => [.Edit .SwitchcaseChar]
  | .Delete => [.Edit .CutSelection]
  | .Change => [.Edit .CutSelection]
  | .Incomplete => [.Incomplete]
  | .RepeatLastAction =>
    match previous with
    | some event => [.Event event]
    | none => []
  | .ChangeInside c =>
    if isValidChangeInsideLeft c then
      [.Edit (.CutLeftBefore c), .Edit (.CutRightBefore (bracketFor c))]
    else if isValidChangeInsideRight c then
      [.Edit (.CutLeftBefore (bracketFor c)), .Edit (.CutRightBefore c)]
    else []
  | .DeleteInside c =>
    if isValidChangeInsideLeft c then
      [.Edit (.CutLeftBefore c), .Edit (.CutRightBefore (bracketFor c))]
    else if isValidChangeInsideRight c then
      [.Edit (.CutLeftBefore (bracketFor c)), .Edit (.CutRightBefore c)]
    else []

/-! ### Claim C6 -/

/-- C6: for every bracket pair, `ChangeInside`/`DeleteInside` emit exactly
{cut-left-before the opening delimiter, cut-right-before the closing
delimiter}, no matter which side introduced the command (quote characters
map to themselves), independently of the driver state; and `ci(`/`ci)` parse
to the corresponding commands. -/
theorem c6_bracket_text_objects :
    ∀ previous : Option ReedlineEvent,
    ((Command.ChangeInside '(').toReedline previous =
       [.Edit (.CutLeftBefore '('), .Edit (.CutRightBefore ')')] ∧
     (Command.ChangeInside ')').toReedline previous =
       [.Edit (.CutLeftBefore '('), .Edit (.CutRightBefore ')')] ∧
     (Command.ChangeInside '[').toReedline previous =
       [.Edit (.CutLeftBefore '['), .Edit (.CutRightBefore ']')] ∧
     (Command.ChangeInside ']').toReedline previous =
       [.Edit (.CutLeftBefore '['), .Edit (.CutRightBefore ']')] ∧
     (Command.ChangeInside '\x7b').toReedline previous =
       [.Edit (.CutLeftBefore '\x7b'), .Edit (.CutRightBefore '\x7d')] ∧
     (Command.ChangeInside '\x7d').toReedline previous =
       [.Edit (.CutLeftBefore '\x7b'), .Edit (.CutRightBefore '\x7d')] ∧
     (Command.ChangeInside '<').toReedline previous =
       [.Edit (.CutLeftBefore '<'), .Edit (.CutRightBefore '>')] ∧
     (Command.ChangeInside '>').toReedline previous =
       [.Edit (.CutLeftBefore '<'), .Edit (.CutRightBefore '>')]) ∧
    ((Command.DeleteInside '(').toReedline previous =
       [.Edit (.CutLeftBefore '('), .Edit (.CutRightBefore ')')] ∧
     (Command.DeleteInside ')').toReedline previous =
       [.Edit (.CutLeftBefore '('), .Edit (.CutRightBefore ')')] ∧
     (Command.DeleteInside '[').toReedline previous =
       [.Edit (.CutLeftBefore '['), .Edit (.CutRightBefore ']')] ∧
     (Command.DeleteInside ']').toReedline previous =
       [.Edit (.CutLeftBefore '['), .Edit (.CutRightBefore ']')] ∧
     (Command.DeleteInside '\x7b').toReedline previous =
       [.Edit (.CutLeftBefore '\x7b'), .Edit (.CutRightBefore '\x7d')] ∧
     (Command.DeleteInside '\x7d').toReedline previous =
       [.Edit (.CutLeftBefore '\x7b'), .Edit (.CutRightBefore '\x7d')] ∧
     (Command.DeleteInside '<').toReedline previous =
       [.Edit (.CutLeftBefore '<'), .Edit (.CutRightBefore '>')] ∧
     (Command.DeleteInside '>').toReedline previous =
       [.Edit (.CutLeftBefore '<'), .Edit (.CutRightBefore '>')]) ∧
    (∀ q : Char, q = '"' ∨ q = '\'' ∨ q = '`' →
       (Command.ChangeInside q).toReedline previous =
         [.Edit (.CutLeftBefore q), .Edit (.CutRightBefore q)] ∧
       (Command.DeleteInside q).toReedline previous =
         [.Edit (.CutLeftBefore q), .Edit (.CutRightBefore q)]) ∧
    (parseCommand ['c', 'i', '('] = some (.ChangeInside '(') ∧
     parseCommand ['c', 'i', ')'] = some (.ChangeInside ')') ∧
     parseCommand ['d', 'i', '('] = some (.DeleteInside '(') ∧
     parseCommand ['d', 'i', ')'] = some (.DeleteInside ')')) := by
  intro previous
  refine ⟨⟨rfl, rfl, rfl, rfl, rfl, rfl, rfl, rfl⟩,
          ⟨rfl, rfl, rfl, rfl, rfl, rfl, rfl, rfl⟩, ?_,
          ⟨rfl, rfl, rfl, rfl⟩⟩
  intro q hq
  rcases hq with h | h | h <;> subst h <;> exact ⟨rfl, rfl⟩

/-- C6 (witness): the quote clause of the theorem applied at the concrete
double-quote character. -/
theorem c6_bracket_witness :
    (Command.ChangeInside '"').toReedline none =
      [.Edit (.CutLeftBefore '"'), .Edit (.CutRightBefore '"')] :=
  ((c6_bracket_text_objects none).2.2.1 '"' (Or.inl rfl)).1

/-! ### Claim C4 -/

/-- A computation that panics (the `Except.error` case). -/
def isPanic {α : Type} : Except String α → Bool
  | .error _ => true
  | .ok _ => false

/-- C4 (refuting the safety claim; the spec's intent is clear, the code
slips): `parse_event` can raise.
(1) Vi: with the legitimate registration `End a → ClearScreen`, pressing
`End` starts the sequence, whose advance immediately cancels (the first key
is advanced against the nested table); the replay then looks `End` up at top
level, finds the nested subtree, and hits the `unreachable!`.
(2) Helix: with `b` bound to the Helix `MovePrevWordStart` event (as in the
default Normal table) and an empty line buffer, `grapheme_left_n`'s
`len() - 1` guard wraps and the subsequent slice `[..=0]` of the empty
buffer panics. -/
theorem c4_parse_event_panics :
    isPanic (viParseEvent (fun s => (.None, s))
      ⟨[], Keybindings.empty,
       Keybindings.empty.addBinding kcEnd [kcA] .ClearScreen,
       .Normal, none, none, none⟩ (.Key .End kmNONE)) = true ∧
    isPanic (helixParseEvent
      ⟨Keybindings.empty,
       Keybindings.empty.addBinding kcB []
         (.Helix (.Normal .MovePrevWordStart)),
       .Normal none, none, none, none⟩ ⟨[], 0⟩
      (.Key (.Char 'b') kmNONE)) = true :=
  ⟨rfl, rfl⟩

/-! ### Claim C2 -/

/-- C2 (counterexample): the claim says plain character keys in a cancelled
sequence are "skipped entirely when the driver is in a non-insert modal
sub-mode (Vi or Helix Normal/Visual/Select)".  In the Vi driver in Normal
mode, with `g h → ClearScreen` registered, pressing `g` cancels (the first
key is advanced against the nested table, where it is unbound) and the
replay emits the literal insertion of `g` — it is not skipped. -/
theorem c2_cancel_counterexample :
    viHandleBinding
      ⟨[], Keybindings.empty,
       Keybindings.empty.addBinding kcG [kcH] .ClearScreen,
       .Normal, none, none, none⟩ kcG =
      .ok (some (.Multiple [.Edit [.InsertChar 'g']]),
           ⟨[], Keybindings.empty,
            Keybindings.empty.addBinding kcG [kcH] .ClearScreen,
            .Normal, none, none, none⟩) ∧
    ([ReedlineEvent.Edit [.InsertChar 'g']] ≠ ([] : List ReedlineEvent)) :=
  ⟨rfl, by simp⟩

theorem helixCancelLoop_chars_normal (lb : LineBuffer)
    (ins nor : Keybindings) (minor : Option HelixMinorMode)
    (cnt : Option Nat) (pend : Option PartialKeySequence)
    (onc : Option (KeyCombination → Option ReedlineEvent)) :
    ∀ (ps : List (Bool × Char)) (acc : List ReedlineEvent),
    helixCancelLoop lb ⟨ins, nor, .Normal minor, cnt, pend, onc⟩
        (ps.map fun p => ⟨if p.1 then kmSHIFT else kmNONE, .Char p.2⟩) acc =
      .ok (acc, ⟨ins, nor, .Normal minor, cnt, pend, onc⟩)
  | [], _ => rfl
  | (b, c) :: rest, acc => by
    have ih := helixCancelLoop_chars_normal lb ins nor minor cnt pend onc
      rest acc
    cases b <;>
      simpa [helixCancelLoop, plainShiftChar, kmSHIFT, kmNONE] using ih

theorem helixCancelLoop_chars_insert (lb : LineBuffer)
    (ins nor : Keybindings) (cnt : Option Nat)
    (pend : Option PartialKeySequence)
    (onc : Option (KeyCombination → Option ReedlineEvent)) :
    ∀ (ps : List (Bool × Char)) (acc : List ReedlineEvent),
    helixCancelLoop lb ⟨ins, nor, .Insert, cnt, pend, onc⟩
        (ps.map fun p => ⟨if p.1 then kmSHIFT else kmNONE, .Char p.2⟩) acc =
      .ok (acc ++ ps.map fun p => .Edit [.InsertChar p.2],
           ⟨ins, nor, .Insert, cnt, pend, onc⟩)
  | [], acc => by simp [helixCancelLoop]
  | (b, c) :: rest, acc => by
    have ih := helixCancelLoop_chars_insert lb ins nor cnt pend onc
      rest (acc ++ [.Edit [.InsertChar c]])
    cases b <;>
      simpa [helixCancelLoop, plainShiftChar, kmSHIFT, kmNONE] using ih

/-- C2 (amended): on cancellation the buffered keys are reinterpreted
individually, but the two modal drivers disagree on character keys:
(1) the Vi replay turns every character key (any modifier, any sub-mode —
Normal and Visual included) into a literal insertion;
(2) the Vi replay looks every non-character key up as a single top-level
binding: a bound leaf is emitted, an unbound key is dropped;
(3) the Helix replay of plain/shift character keys skips them entirely in
Normal mode (any minor mode), clearing the count and producing no event;
(4) in Helix Insert mode the same keys become literal insertions wrapped in
one `Multiple`;
(5) the Helix replay looks other keys up in the active table: a bound
non-Helix leaf is emitted, an unbound key is dropped. -/
theorem c2_cancel_reinterpretation :
    (∀ (s : ViState) (ps : List (KeyModifiers × Char)),
       viReplay s (ps.map fun p => ⟨p.1, .Char p.2⟩) =
         .ok (ps.map fun p => .Edit [.InsertChar p.2])) ∧
    (∀ (s : ViState) (kc : KeyCombination) (e : ReedlineEvent),
       (∀ c, kc.keyCode ≠ .Char c) →
       ((viActiveBindings s).findBinding kc.modifier
           (toLowercaseKeyCode kc.keyCode) = some (.Event e) →
         viReplay s [kc] = .ok [e]) ∧
       ((viActiveBindings s).findBinding kc.modifier
           (toLowercaseKeyCode kc.keyCode) = none →
         viReplay s [kc] = .ok [])) ∧
    (∀ (lb : LineBuffer) (ins nor : Keybindings)
       (minor : Option HelixMinorMode) (cnt : Option Nat)
       (pend : Option PartialKeySequence)
       (onc : Option (KeyCombination → Option ReedlineEvent))
       (ps : List (Bool × Char)),
       helixCancelKeySequence ⟨ins, nor, .Normal minor, cnt, pend, onc⟩ lb
           (ps.map fun p => ⟨if p.1 then kmSHIFT else kmNONE, .Char p.2⟩) =
         .ok (none, ⟨ins, nor, .Normal minor, none, pend, onc⟩)) ∧
    (∀ (lb : LineBuffer) (ins nor : Keybindings) (cnt : Option Nat)
       (pend : Option PartialKeySequence)
       (onc : Option (KeyCombination → Option ReedlineEvent))
       (ps : List (Bool × Char)),
       helixCancelKeySequence ⟨ins, nor, .Insert, cnt, pend, onc⟩ lb
           (ps.map fun p => ⟨if p.1 then kmSHIFT else kmNONE, .Char p.2⟩) =
         .ok (if ps.isEmpty then none
              else some (.Multiple (ps.map fun p => .Edit [.InsertChar p.2])),
              ⟨ins, nor, .Insert, none, pend, onc⟩)) ∧
    (∀ (s : HelixState) (lb : LineBuffer) (kc : KeyCombination)
       (e : ReedlineEvent),
       plainShiftChar kc = none →
       ((helixActiveBindings s).findBinding kc.modifier
           (toLowercaseKeyCode kc.keyCode) = some (.Event e) →
         (∀ hev, e ≠ .Helix hev) →
         helixCancelKeySequence s lb [kc] =
           .ok (some (.Multiple [e]), { s with count := none })) ∧
       ((helixActiveBindings s).findBinding kc.modifier
           (toLowercaseKeyCode kc.keyCode) = none →
         helixCancelKeySequence s lb [kc] =
           .ok (none, { s with count := none }))) := by
  refine ⟨?_, ?_, ?_, ?_, ?_⟩
  · intro s ps
    induction ps with
    | nil => rfl
    | cons p rest ih => simp [viReplay, ih]
  · intro s kc e hnc
    obtain ⟨km, code⟩ := kc
    cases code
    case Char c => exact absurd rfl (hnc c)
    all_goals constructor <;> intro hf <;> simp [viReplay, hf]
  · intro lb ins nor minor cnt pend onc ps
    simp [helixCancelKeySequence,
          helixCancelLoop_chars_normal lb ins nor minor none pend onc ps []]
  · intro lb ins nor cnt pend onc ps
    simp only [helixCancelKeySequence,
          helixCancelLoop_chars_insert lb ins nor none pend onc ps []]
    cases ps <;> simp
  · intro s lb kc e hpc
    obtain ⟨ins, nor, mode, cnt, pend, onc⟩ := s
    constructor
    · intro hf hnhe
      cases mode <;>
        · simp only [helixActiveBindings] at hf
          cases e <;> first
            | exact absurd rfl (hnhe _)
            | simp [helixCancelKeySequence, helixCancelLoop,
                    helixActiveBindings, hpc, hf]
    · intro hf
      cases mode <;>
        · simp only [helixActiveBindings] at hf
          simp [helixCancelKeySequence, helixCancelLoop,
                helixActiveBindings, hpc, hf]

/-- C2 (witness): the amended clauses applied at concrete inputs — a Vi
replay of plain `g`,`x` inserts both characters; a Helix Normal-mode
cancellation of the same keys produces nothing and clears a pending count;
the same Helix cancellation in Insert mode inserts both characters. -/
theorem c2_cancel_witness :
    viReplay
      ⟨[], Keybindings.empty, Keybindings.empty, .Normal, none, none, none⟩
      [kcG, kcX] =
      .ok [.Edit [.InsertChar 'g'], .Edit [.InsertChar 'x']] ∧
    helixCancelKeySequence
      ⟨Keybindings.empty, Keybindings.empty, .Normal none, some 3, none,
       none⟩ ⟨[], 0⟩ [kcG, kcX] =
      .ok (none,
        ⟨Keybindings.empty, Keybindings.empty, .Normal none, none, none,
         none⟩) ∧
    helixCancelKeySequence
      ⟨Keybindings.empty, Keybindings.empty, .Insert, some 3, none, none⟩
      ⟨[], 0⟩ [kcG, kcX] =
      .ok (some (.Multiple [.Edit [.InsertChar 'g'], .Edit [.InsertChar 'x']]),
        ⟨Keybindings.empty, Keybindings.empty, .Insert, none, none, none⟩) := by
  refine ⟨?_, ?_, ?_⟩
  · have := c2_cancel_reinterpretation.1
      ⟨[], Keybindings.empty, Keybindings.empty, .Normal, none, none, none⟩
      [(kmNONE, 'g'), (kmNONE, 'x')]
    simpa [kcG, kcX] using this
  · have := c2_cancel_reinterpretation.2.2.1 ⟨[], 0⟩
      Keybindings.empty Keybindings.empty none (some 3) none none
      [(false, 'g'), (false, 'x')]
    simpa [kcG, kcX] using this
  · have := c2_cancel_reinterpretation.2.2.2.1 ⟨[], 0⟩
      Keybindings.empty Keybindings.empty (some 3) none none
      [(false, 'g'), (false, 'x')]
    simpa [kcG, kcX] using this

/-! ### Claim C3 -/

/-- C3 (counterexample): the claim says pressing Escape, from every state,
results in Normal mode.  In the Helix driver in Insert mode with a pending
multi-key sequence (buffered key `q`), Escape cancels the sequence — the
buffered key is replayed as a literal insertion — but the driver stays in
Insert mode. -/
theorem c3_escape_counterexample :
    helixHandleBinding
      ⟨Keybindings.empty, Keybindings.empty, .Insert, some 5,
       some ⟨SeqMap.nil, [kcQ]⟩, none⟩ ⟨[], 0⟩ kcEsc =
      .ok (some (.Multiple [.Edit [.InsertChar 'q']]),
           ⟨Keybindings.empty, Keybindings.empty, .Insert, none, none,
            none⟩) ∧
    (∀ minor, HelixMode.Insert ≠ HelixMode.Normal minor) :=
  ⟨rfl, by intro minor; simp⟩

/-- C3 (amended): pressing Escape clears the pending state, but forcing
Normal mode holds unconditionally only in the Vi driver; the Helix driver
forces Normal mode only when no multi-key sequence is pending (a pending
sequence is cancelled and replayed instead, leaving the mode to the replay).
(1) Vi: from every state (any sub-mode, any cache, any pending sequence) and
for every grammar instantiation, plain Escape clears the character cache and
the pending sequence, forces Normal, and emits {escape, repaint};
(2) Helix: from every state with no pending sequence, Escape (any modifier)
clears count, pending sequence and pending continuation, forces Normal, and
emits a repaint exactly when it returns from Insert mode (the no-op event
otherwise). -/
theorem c3_escape_clears_pending :
    (∀ (g : ViGrammarStep) (s : ViState),
       viParseEvent g s (.Key .Esc kmNONE) =
         .ok (.Multiple [.Esc, .Repaint],
              { s with cache := [], pending := none, mode := .Normal })) ∧
    (∀ (s : HelixState) (lb : LineBuffer) (m : KeyModifiers),
       s.pending = none →
       helixHandleBinding s lb ⟨m, .Esc⟩ =
         .ok (some (if s.mode = .Insert then ReedlineEvent.Repaint
                    else .None),
              { s with mode := .Normal none, count := none,
                       pending := none, onNextChar := none })) := by
  constructor
  · intro g s
    rfl
  · intro s lb m h
    obtain ⟨ins, nor, mode, cnt, pend, onc⟩ := s
    simp only at h
    subst h
    cases mode <;> rfl

/-- C3 (witness): the Helix clause applied at a concrete Insert-mode state
with a pending count and continuation — Escape lands in Normal mode with
everything cleared and a repaint emitted — and the Vi clause at a concrete
Visual-mode state. -/
theorem c3_escape_witness :
    helixHandleBinding
      ⟨Keybindings.empty, Keybindings.empty, .Insert, some 7, none,
       some fun _ => none⟩ ⟨[], 0⟩ kcEsc =
      .ok (some .Repaint,
           ⟨Keybindings.empty, Keybindings.empty, .Normal none, none, none,
            none⟩) ∧
    viParseEvent (fun s => (.None, s))
      ⟨['d'], Keybindings.empty, Keybindings.empty, .Visual, none, none,
       none⟩ (.Key .Esc kmNONE) =
      .ok (.Multiple [.Esc, .Repaint],
           ⟨[], Keybindings.empty, Keybindings.empty, .Normal, none, none,
            none⟩) := by
  constructor
  · have := c3_escape_clears_pending.2
      ⟨Keybindings.empty, Keybindings.empty, .Insert, some 7, none,
       some fun _ => none⟩ ⟨[], 0⟩ kmNONE rfl
    simpa [kcEsc] using this
  · have := c3_escape_clears_pending.1 (fun s => (.None, s))
      ⟨['d'], Keybindings.empty, Keybindings.empty, .Visual, none, none,
       none⟩
    simpa using this

/-! ### Claim C7 -/

/-- C7: a count-consuming Helix Normal command multiplies its operation by
the pending count (as one composite `Multiple`) and resets the count: stated
generally for char-right with any pending count, and concretely for the
keystroke run `3`,`l` (with `l` bound to char-right as in the default Normal
table), which emits char-right exactly 3 times and leaves the count empty. -/
theorem c7_count_multiplies :
    (∀ (ins nor : Keybindings) (minor : Option HelixMinorMode) (n : Nat)
       (pend : Option PartialKeySequence)
       (onc : Option (KeyCombination → Option ReedlineEvent))
       (lb : LineBuffer),
       handleHelixEvent ⟨ins, nor, .Normal minor, some n, pend, onc⟩ lb
           (.Normal .MoveCharRight) =
         .ok (some (.Multiple (List.replicate n
                 (.Edit [.MoveRight (decide (minor = some .Select))]))),
              ⟨ins, nor, .Normal minor, none, pend, onc⟩)) ∧
    (helixHandleBinding
        ⟨Keybindings.empty,
         Keybindings.empty.addBinding ⟨kmNONE, .Char 'l'⟩ []
           (.Helix (.Normal .MoveCharRight)),
         .Normal none, none, none, none⟩ ⟨[], 0⟩ ⟨kmNONE, .Char '3'⟩ =
       .ok (none,
            ⟨Keybindings.empty,
             Keybindings.empty.addBinding ⟨kmNONE, .Char 'l'⟩ []
               (.Helix (.Normal .MoveCharRight)),
             .Normal none, some 3, none, none⟩) ∧
     helixHandleBinding
        ⟨Keybindings.empty,
         Keybindings.empty.addBinding ⟨kmNONE, .Char 'l'⟩ []
           (.Helix (.Normal .MoveCharRight)),
         .Normal none, some 3, none, none⟩ ⟨[], 0⟩ ⟨kmNONE, .Char 'l'⟩ =
       .ok (some (.Multiple [.Edit [.MoveRight false],
                             .Edit [.MoveRight false],
                             .Edit [.MoveRight false]]),
            ⟨Keybindings.empty,
             Keybindings.empty.addBinding ⟨kmNONE, .Char 'l'⟩ []
               (.Helix (.Normal .MoveCharRight)),
             .Normal none, none, none, none⟩)) :=
  ⟨fun _ _ _ _ _ _ _ => rfl, rfl, rfl⟩

/-- C7 (witness): the general multiplication clause applied at count 3. -/
theorem c7_count_witness :
    handleHelixEvent
      ⟨Keybindings.empty, Keybindings.empty, .Normal none, some 3, none,
       none⟩ ⟨[], 0⟩ (.Normal .MoveCharRight) =
      .ok (some (.Multiple [.Edit [.MoveRight false],
                            .Edit [.MoveRight false],
                            .Edit [.MoveRight false]]),
           ⟨Keybindings.empty, Keybindings.empty, .Normal none, none, none,
            none⟩) := by
  have := c7_count_multiplies.1 Keybindings.empty Keybindings.empty none 3
    none none ⟨[], 0⟩
  simpa using this

/-! ### Claim C8 -/

/-- C8 (counterexample): the claim (following the spec's §9 tie-break)
says a digit pressed while a count is in progress appends to the count.
With `0` bound in the Normal table (to line-start, as is typical) and count
1 pending, pressing `0` dispatches the bound action and leaves the count at
1 — it does not append to make 10. -/
theorem c8_digit_counterexample :
    helixHandleBinding
      ⟨Keybindings.empty,
       Keybindings.empty.addBinding ⟨kmNONE, .Char '0'⟩ []
         (editBind (.MoveToLineStart false)),
       .Normal none, some 1, none, none⟩ ⟨[], 0⟩ ⟨kmNONE, .Char '0'⟩ =
      .ok (some (.Edit [.MoveToLineStart false]),
           ⟨Keybindings.empty,
            Keybindings.empty.addBinding ⟨kmNONE, .Char '0'⟩ []
              (editBind (.MoveToLineStart false)),
            .Normal none, some 1, none, none⟩) ∧
    (some 1 : Option Nat) ≠ some 10 :=
  ⟨rfl, by decide⟩

/-- C8 (amended): in Helix Normal mode a digit key accumulates the pending
count only when the key is not otherwise bound in the active table; when the
key is bound, the binding path is taken instead of the digit branch — the
append of the spec's §4.3/§9 tie-break never happens for a bound digit.
What becomes of the count then depends on the binding: a non-Helix event
leaf dispatches with the count untouched; a Helix-event leaf dispatches
through `handle_helix_event`, which consumes the pending count as its
repeat multiplier and resets it (concretely, `2` bound to char-right with
count 3 pending yields char-right repeated 3 times and an empty count, not
count 32); a binding whose sequence continues reports Pending, recording
the key and leaving the count untouched.  Among unbound digits: only
`1`–`9` start a fresh count; `0` with no count in progress does nothing; a
digit pressed while a count is in progress appends (count*10 + digit),
except that once the count has reached 100000000 the digit is dropped (the
overflow cap). -/
theorem c8_digit_accumulation :
    (∀ (ins nor : Keybindings) (minor : Option HelixMinorMode)
       (cnt : Option Nat) (lb : LineBuffer) (d : Char) (e : ReedlineEvent),
       nor.findBinding kmNONE (.Char (asciiLower d)) = some (.Event e) →
       (∀ hev, e ≠ .Helix hev) →
       helixHandleBinding ⟨ins, nor, .Normal minor, cnt, none, none⟩ lb
           ⟨kmNONE, .Char d⟩ =
         .ok (some e, ⟨ins, nor, .Normal minor, cnt, none, none⟩)) ∧
    (∀ (ins nor : Keybindings) (minor : Option HelixMinorMode)
       (cnt : Option Nat) (lb : LineBuffer) (d : Char) (hev : HelixEvent),
       nor.findBinding kmNONE (.Char (asciiLower d)) =
         some (.Event (.Helix hev)) →
       helixHandleBinding ⟨ins, nor, .Normal minor, cnt, none, none⟩ lb
           ⟨kmNONE, .Char d⟩ =
         handleHelixEvent ⟨ins, nor, .Normal minor, cnt, none, none⟩ lb
           hev) ∧
    (helixHandleBinding
        ⟨Keybindings.empty,
         Keybindings.empty.addBinding ⟨kmNONE, .Char '2'⟩ []
           (.Helix (.Normal .MoveCharRight)),
         .Normal none, some 3, none, none⟩ ⟨[], 0⟩ ⟨kmNONE, .Char '2'⟩ =
       .ok (some (.Multiple [.Edit [.MoveRight false],
                             .Edit [.MoveRight false],
                             .Edit [.MoveRight false]]),
            ⟨Keybindings.empty,
             Keybindings.empty.addBinding ⟨kmNONE, .Char '2'⟩ []
               (.Helix (.Normal .MoveCharRight)),
             .Normal none, none, none, none⟩)) ∧
    (∀ (ins nor : Keybindings) (minor : Option HelixMinorMode)
       (cnt : Option Nat) (lb : LineBuffer) (d : Char) (sq : SeqMap),
       nor.findBinding kmNONE (.Char (asciiLower d)) = some (.Seq sq) →
       helixHandleBinding ⟨ins, nor, .Normal minor, cnt, none, none⟩ lb
           ⟨kmNONE, .Char d⟩ =
         .ok (none, ⟨ins, nor, .Normal minor, cnt,
                     some ⟨sq, [⟨kmNONE, .Char d⟩]⟩, none⟩)) ∧
    (∀ (ins nor : Keybindings) (minor : Option HelixMinorMode)
       (lb : LineBuffer) (d : Char),
       nor.findBinding kmNONE (.Char (asciiLower d)) = none →
       '1' ≤ d → d ≤ '9' →
       helixHandleBinding ⟨ins, nor, .Normal minor, none, none, none⟩ lb
           ⟨kmNONE, .Char d⟩ =
         .ok (none, ⟨ins, nor, .Normal minor, some (digitVal d), none,
                     none⟩)) ∧
    (∀ (ins nor : Keybindings) (minor : Option HelixMinorMode)
       (lb : LineBuffer),
       nor.findBinding kmNONE (.Char '0') = none →
       helixHandleBinding ⟨ins, nor, .Normal minor, none, none, none⟩ lb
           ⟨kmNONE, .Char '0'⟩ =
         .ok (none, ⟨ins, nor, .Normal minor, none, none, none⟩)) ∧
    (∀ (ins nor : Keybindings) (minor : Option HelixMinorMode)
       (lb : LineBuffer) (d : Char) (n : Nat),
       nor.findBinding kmNONE (.Char (asciiLower d)) = none →
       '0' ≤ d → d ≤ '9' → 0 < n → n < 100000000 →
       helixHandleBinding ⟨ins, nor, .Normal minor, some n, none, none⟩ lb
           ⟨kmNONE, .Char d⟩ =
         .ok (none, ⟨ins, nor, .Normal minor, some (n * 10 + digitVal d),
                     none, none⟩)) ∧
    (∀ (ins nor : Keybindings) (minor : Option HelixMinorMode)
       (lb : LineBuffer) (d : Char) (n : Nat),
       nor.findBinding kmNONE (.Char (asciiLower d)) = none →
       '0' ≤ d → d ≤ '9' → 100000000 ≤ n →
       helixHandleBinding ⟨ins, nor, .Normal minor, some n, none, none⟩ lb
           ⟨kmNONE, .Char d⟩ =
         .ok (none, ⟨ins, nor, .Normal minor, some n, none, none⟩)) := by
  refine ⟨?_, ?_, rfl, ?_, ?_, ?_, ?_, ?_⟩
  · intro ins nor minor cnt lb d e hf hnhe
    cases e <;> first
      | exact absurd rfl (hnhe _)
      | simp [helixHandleBinding, helixActiveBindings, hf,
              PartialKeySequence.advance, SeqMap.removeKey, toLowercaseKeyCode]
  · intro ins nor minor cnt lb d hev hf
    simp [helixHandleBinding, helixActiveBindings, hf,
          PartialKeySequence.advance, SeqMap.removeKey, toLowercaseKeyCode]
  · intro ins nor minor cnt lb d sq hf
    simp [helixHandleBinding, helixActiveBindings, hf,
          PartialKeySequence.advance, SeqMap.removeKey, toLowercaseKeyCode]
  · intro ins nor minor lb d hf h1 h9
    have hlo := UInt32.le_toNat_of_le (m := 49) (by decide) (Char.le_def.mp h1)
    have htn : Char.toNat d = d.val.toNat := rfl
    have hnz : digitVal d ≠ 0 := by
      unfold digitVal; omega
    simp [helixHandleBinding, helixActiveBindings, hf, toLowercaseKeyCode,
          h1, h9, nonZeroNew, hnz]
  · intro ins nor minor lb hf
    have ha : asciiLower '0' = '0' := rfl
    simp [helixHandleBinding, helixActiveBindings, hf, toLowercaseKeyCode, ha]
  · intro ins nor minor lb d n hf h0 h9 hn hcap
    have hhi := UInt32.toNat_le_of_le (m := 57) (by decide) (Char.le_def.mp h9)
    have htn : Char.toNat d = d.val.toNat := rfl
    have hmod : (n * 10 + digitVal d) % 2 ^ 64 = n * 10 + digitVal d := by
      apply Nat.mod_eq_of_lt
      unfold digitVal
      omega
    have hnz : n * 10 + digitVal d ≠ 0 := by
      unfold digitVal; omega
    simp [helixHandleBinding, helixActiveBindings, hf, toLowercaseKeyCode,
          h0, h9, hcap, hmod, nonZeroNew, hnz]
    have hdv : digitVal d = d.toNat - 48 := rfl
    omega
  · intro ins nor minor lb d n hf h0 h9 hcap
    have hnot : ¬n < 100000000 := by omega
    simp [helixHandleBinding, helixActiveBindings, hf, toLowercaseKeyCode,
          h0, h9, hnot]

/-- C8 (witness): the amended clauses at concrete inputs — a digit bound to
a Helix event dispatches through `handle_helix_event` (which consumes the
pending count); a digit bound as a sequence prefix starts the pending
sequence with the count untouched; unbound `3` starts the count at 3;
unbound `0` pressed with count 12 pending appends, making 120. -/
theorem c8_digit_witness :
    helixHandleBinding
      ⟨Keybindings.empty,
       Keybindings.empty.addBinding ⟨kmNONE, .Char '2'⟩ []
         (.Helix (.Normal .MoveCharRight)),
       .Normal none, some 3, none, none⟩ ⟨[], 0⟩ ⟨kmNONE, .Char '2'⟩ =
      handleHelixEvent
        ⟨Keybindings.empty,
         Keybindings.empty.addBinding ⟨kmNONE, .Char '2'⟩ []
           (.Helix (.Normal .MoveCharRight)),
         .Normal none, some 3, none, none⟩ ⟨[], 0⟩
        (.Normal .MoveCharRight) ∧
    helixHandleBinding
      ⟨Keybindings.empty,
       Keybindings.empty.addBinding ⟨kmNONE, .Char '5'⟩ [kcA] .ClearScreen,
       .Normal none, some 7, none, none⟩ ⟨[], 0⟩ ⟨kmNONE, .Char '5'⟩ =
      .ok (none,
           ⟨Keybindings.empty,
            Keybindings.empty.addBinding ⟨kmNONE, .Char '5'⟩ [kcA]
              .ClearScreen,
            .Normal none, some 7,
            some ⟨SeqMap.cons kcA (.Event .ClearScreen) SeqMap.nil,
                  [⟨kmNONE, .Char '5'⟩]⟩, none⟩) ∧
    helixHandleBinding
      ⟨Keybindings.empty, Keybindings.empty, .Normal none, none, none,
       none⟩ ⟨[], 0⟩ ⟨kmNONE, .Char '3'⟩ =
      .ok (none,
           ⟨Keybindings.empty, Keybindings.empty, .Normal none, some 3,
            none, none⟩) ∧
    helixHandleBinding
      ⟨Keybindings.empty, Keybindings.empty, .Normal none, some 12, none,
       none⟩ ⟨[], 0⟩ ⟨kmNONE, .Char '0'⟩ =
      .ok (none,
           ⟨Keybindings.empty, Keybindings.empty, .Normal none, some 120,
            none, none⟩) := by
  refine ⟨?_, ?_, ?_, ?_⟩
  · exact c8_digit_accumulation.2.1 Keybindings.empty
      (Keybindings.empty.addBinding ⟨kmNONE, .Char '2'⟩ []
        (.Helix (.Normal .MoveCharRight)))
      none (some 3) ⟨[], 0⟩ '2' (.Normal .MoveCharRight) rfl
  · exact c8_digit_accumulation.2.2.2.1 Keybindings.empty
      (Keybindings.empty.addBinding ⟨kmNONE, .Char '5'⟩ [kcA] .ClearScreen)
      none (some 7) ⟨[], 0⟩ '5'
      (SeqMap.cons kcA (.Event .ClearScreen) SeqMap.nil) rfl
  · have h3 : digitVal '3' = 3 := rfl
    have := c8_digit_accumulation.2.2.2.2.1 Keybindings.empty
      Keybindings.empty none ⟨[], 0⟩ '3' rfl (by decide) (by decide)
    simpa [h3] using this
  · have h0 : digitVal '0' = 0 := rfl
    have := c8_digit_accumulation.2.2.2.2.2.2.1 Keybindings.empty
      Keybindings.empty none ⟨[], 0⟩ '0' 12 rfl (by decide) (by decide)
      (by decide) (by decide)
    simpa [h0] using this

/-! ### Claim C10 -/

/-- C10: `Helix::default` starts in Insert mode with both tables empty — in
particular the built-in default tables, which do bind keys (`l` to
char-right in the Normal table, Escape to the Helix normal-mode event in the
Insert table), are not installed, and the corresponding lookups in the
default-constructed driver find nothing.  Consequently every plain character
key inserts itself literally, Escape still switches to Normal mode through
its hardcoded handling (emitting a repaint), and every other key yields the
no-op event. -/
theorem c10_helix_default_empty :
    helixDefault.mode = .Insert ∧
    helixDefault.insertKeybindings = Keybindings.empty ∧
    helixDefault.normalKeybindings = Keybindings.empty ∧
    (defaultHelixNormalKeybindings.findBinding kmNONE (.Char 'l') =
       some (.Event (.Helix (.Normal .MoveCharRight))) ∧
     helixDefault.normalKeybindings.findBinding kmNONE (.Char 'l') = none) ∧
    (defaultHelixInsertKeybindings.findBinding kmNONE .Esc =
       some (.Event (.Helix .NormalMode)) ∧
     helixDefault.insertKeybindings.findBinding kmNONE .Esc = none) ∧
    (∀ (c : Char) (lb : LineBuffer),
       helixHandleBinding helixDefault lb ⟨kmNONE, .Char c⟩ =
         .ok (some (.Edit [.InsertChar c]), helixDefault)) ∧
    (∀ (m : KeyModifiers) (lb : LineBuffer),
       helixHandleBinding helixDefault lb ⟨m, .Esc⟩ =
         .ok (some .Repaint, { helixDefault with mode := .Normal none })) ∧
    (∀ (m : KeyModifiers) (code : KeyCode) (lb : LineBuffer),
       code ≠ .Esc → (∀ c, code ≠ .Char c) →
       helixParseEvent helixDefault lb (.Key code m) =
         .ok (.None, helixDefault)) := by
  refine ⟨rfl, rfl, rfl, ⟨rfl, rfl⟩, ⟨rfl, rfl⟩,
          fun c lb => rfl, fun m lb => rfl, ?_⟩
  intro m code lb hesc hchar
  cases code
  case Char c => exact absurd rfl (hchar c)
  case Esc => exact absurd rfl hesc
  all_goals rfl

/-- C10 (witness): the quantified clauses at concrete inputs — plain `z`
inserts, Escape repaints into Normal, `End` is a no-op. -/
theorem c10_helix_default_witness :
    helixHandleBinding helixDefault ⟨[], 0⟩ ⟨kmNONE, .Char 'z'⟩ =
      .ok (some (.Edit [.InsertChar 'z']), helixDefault) ∧
    helixHandleBinding helixDefault ⟨[], 0⟩ kcEsc =
      .ok (some .Repaint, { helixDefault with mode := .Normal none }) ∧
    helixParseEvent helixDefault ⟨[], 0⟩ (.Key .End kmNONE) =
      .ok (.None, helixDefault) :=
  ⟨c10_helix_default_empty.2.2.2.2.2.1 'z' ⟨[], 0⟩,
   c10_helix_default_empty.2.2.2.2.2.2.1 kmNONE ⟨[], 0⟩,
   c10_helix_default_empty.2.2.2.2.2.2.2 kmNONE .End ⟨[], 0⟩
     (fun h => KeyCode.noConfusion h) (fun _ h => KeyCode.noConfusion h)⟩
